/-
  Verification development for the product-hunt scraper pipeline.

  Shallow embedding of the pagination, reply-expansion, enrichment and
  correlation logic of the crawler modules.  Network calls are modelled as
  oracles (functions from a request index to the parsed response, with
  Except.error standing for a thrown transport exception), and each
  pagination loop is embedded as a fuel-indexed recursive function that
  mirrors the control flow of the corresponding JavaScript loop statement
  by statement.  Presentation-only record fields that no logic inspects
  (bodyHtml, badges, url, path, avatar decoration of nested objects) are
  omitted from the record types; every field that any branch of the
  embedded control flow reads is present.
-/

import Mathlib

set_option maxRecDepth 4000

namespace PH

/-! ## JavaScript value helpers

JS truthiness for the defaulting idioms used by the source:
`x || d` where x is a possibly-absent string or number. -/
/-- JS idiom `s || d` for a possibly absent string: empty string is falsy. -/
def jsOrStr (a : Option String) (d : String) : String :=
  match a with
  | some s => if s = "" then d else s
  | none => d

/-- JS idiom `n || d` for a possibly absent number: 0 is falsy. -/
def jsOrNat (a : Option Nat) (d : Nat) : Nat :=
  match a with
  | some n => if n = 0 then d else n
  | none => d

/-- JS idiom `b || false` for a possibly absent boolean. -/
def jsOrBool (a : Option Bool) : Bool := a.getD false

/-- Concatenation of the batches `f k, f (k+1), ..., f (k+n-1)`. -/
def concatFrom (f : Nat → List α) : Nat → Nat → List α
  | _, 0 => []
  | k, n + 1 => f k ++ concatFrom f (k + 1) n

/-- JS `Array.prototype.findIndex` returning an optional index. -/
def jsFindIndex (p : α → Bool) : List α → Option Nat
  | [] => none
  | a :: as => if p a then some 0 else (jsFindIndex p as).map (· + 1)

/-- In-place update of the element at an index (JS `arr[i] = ...`). -/
def updateAt : List α → Nat → (α → α) → List α
  | [], _, _ => []
  | a :: as, 0, f => f a :: as
  | a :: as, n + 1, f => a :: updateAt as n f

/-! ## Base64 (Buffer.from(String(n)).toString with base64) -/
def base64Alphabet : List Char :=
  "ABCDEFGHIJKLMNOPQRSTUVWXYZabcdefghijklmnopqrstuvwxyz0123456789+/".toList

def b64Char (n : Nat) : Char := base64Alphabet.getD n 'A'

/-- RFC 4648 base64 of a byte list, with padding, as produced by node
Buffer.toString. -/
def base64Encode : List Nat → String
  | [] => ""
  | [a] => String.mk [b64Char (a / 4), b64Char (a % 4 * 16), '=', '=']
  | [a, b] =>
    String.mk [b64Char (a / 4), b64Char (a % 4 * 16 + b / 16), b64Char (b % 16 * 4), '=']
  | a :: b :: c :: rest =>
    String.mk [b64Char (a / 4), b64Char (a % 4 * 16 + b / 16),
      b64Char (b % 16 * 4 + c / 64), b64Char (c % 64)] ++ base64Encode rest

/-- Cursor computed by fetchReviews:
Buffer.from(String(totalFetched)).toString base64. -/
def encodeCursor (total : Nat) : String :=
  base64Encode ((toString total).toList.map Char.toNat)

/-! ## Reviews: productReviews.js -/
structure Reviewer where
  name : String
  username : String
  deriving Repr, DecidableEq

/-- Canonical review record built by productReviews._parseReviews. -/
structure Review where
  reviewer : Reviewer
  usedToBuild : String
  text : String
  rating : Option Nat
  sentiment : Option String
  date : String
  helpfulVotes : Nat
  id : String
  url : String
  isVerified : Bool
  commentsCount : Nat
  hasVoted : Bool
  deriving Repr, DecidableEq

structure RawUser where
  name : Option String
  username : Option String
  deriving Repr, DecidableEq

/-- Raw review node from the GraphQL response (edge.node). -/
structure RawReviewNode where
  user : Option RawUser
  text : Option String
  body : Option String
  rating : Option Nat
  createdAt : Option String
  votesCount : Option Nat
  id : Option String
  url : Option String
  isVerified : Option Bool
  commentsCount : Option Nat
  hasVoted : Option Bool
  deriving Repr, DecidableEq

structure RawReviewEdge where
  node : RawReviewNode
  deriving Repr, DecidableEq

structure RawReviewsData where
  edges : Option (List RawReviewEdge)
  deriving Repr, DecidableEq

/-- productReviews._parseReviews, per edge. -/
def parseReviewEdge (edge : RawReviewEdge) : Review :=
  let review := edge.node
  let rating := jsOrNat review.rating 0
  let ratingOpt : Option Nat := if rating = 0 then none else some rating
  let baseUrl := jsOrStr review.url ""
  let reviewId := jsOrStr review.id ""
  let formattedUrl := if reviewId ≠ "" then baseUrl ++ "?review=" ++ reviewId else baseUrl
  { reviewer :=
      { name := jsOrStr (review.user.bind (·.name)) ""
        username := jsOrStr (review.user.bind (·.username)) "" }
    usedToBuild := ""
    text := jsOrStr review.text (jsOrStr review.body "")
    rating := ratingOpt
    sentiment := none
    date := jsOrStr review.createdAt ""
    helpfulVotes := jsOrNat review.votesCount 0
    id := reviewId
    url := formattedUrl
    isVerified := jsOrBool review.isVerified
    commentsCount := jsOrNat review.commentsCount 0
    hasVoted := jsOrBool review.hasVoted }

/-- productReviews._parseReviews. -/
def parseReviews (reviewsData : Option RawReviewsData) : List Review :=
  match reviewsData with
  | none => []
  | some rd =>
    match rd.edges with
    | none => []
    | some edges => edges.map parseReviewEdge

/-! ## Sentiment enrichment: geminiAIExtractor.extractSentiment

The Gemini network call of _processSentimentBatch is modelled as an oracle
from the batch number to the per-position sentiment results
(sentimentResults[j].sentiment, with none for an absent entry or a falsy
sentiment value). -/
/-- Structural helper for batch slicing (fuel bounds the recursion depth,
any fuel at least the list length gives the slicing itself). -/
def chunk10Fuel : Nat → List α → List (List α)
  | 0, _ => []
  | _ + 1, [] => []
  | n + 1, a :: as => ((a :: as).take 10) :: chunk10Fuel n ((a :: as).drop 10)

/-- Batch slicing with the default batchSize of 10 used by every caller. -/
def chunk10 (l : List α) : List (List α) := chunk10Fuel l.length l

/-- Inner update loop of extractSentiment for a single batch: for each j,
if the extractor produced a sentiment, find the original review by id in
the full collection and write the sentiment field there. -/
def applySentimentResults (reviews : List Review) :
    List Review → List (Option String) → List Review → List Review
  | [], _, enhanced => enhanced
  | _ :: _, [], enhanced => enhanced
  | b :: bs, r :: rs, enhanced =>
    let enhanced1 :=
      match r with
      | none => enhanced
      | some s =>
        match jsFindIndex (fun x => x.id == b.id) reviews with
        | some idx => updateAt enhanced idx (fun x => { x with sentiment := some s })
        | none => enhanced
    applySentimentResults reviews bs rs enhanced1

/-- Batch loop of extractSentiment over the chunked rating-less subset. -/
def sentimentBatchLoop (reviews : List Review) (extractor : Nat → List (Option String)) :
    List (List Review) → Nat → List Review → List Review
  | [], _, enhanced => enhanced
  | b :: bs, i, enhanced =>
    sentimentBatchLoop reviews extractor bs (i + 1)
      (applySentimentResults reviews b (extractor i) enhanced)

/-- geminiAIExtractor.extractSentiment: filters the reviews lacking a
numeric rating, processes that subset in batches of 10, and writes each
sentiment back to the review found by id in the full collection. -/
def extractSentiment (reviews : List Review) (extractor : Nat → List (Option String)) :
    List Review :=
  let reviewsNeedingSentiment := reviews.filter fun r => r.rating.isNone
  if reviewsNeedingSentiment.length = 0 then reviews
  else sentimentBatchLoop reviews extractor (chunk10 reviewsNeedingSentiment) 0 reviews

/-! ## Reviews pagination loop: productReviews.fetchReviews

The per-batch network fetch (_fetchReviewsBatch) is an oracle from the
request number to the parsed batch; the per-batch Gemini processing step
(extractUsedToBuildField then conditional extractSentiment) is an abstract
function from the request number and the batch to the processed batch. -/
structure ReviewsRequest where
  cursor : Option String
  accBefore : Nat
  deriving Repr, DecidableEq

/-- The while loop of fetchReviews.  Returns the final (allReviews,
totalFetched) when the loop exits within the given fuel, none otherwise,
together with the trace of requests issued. -/
def fetchReviewsLoop (batches : Nat → List Review) (process : Nat → List Review → List Review)
    (limit : Option Nat) :
    Nat → Nat → Option String → List Review → Nat →
      Option (List Review × Nat) × List ReviewsRequest
  | 0, _, _, _, _ => (none, [])
  | fuel + 1, k, cursor, acc, total =>
    let req : ReviewsRequest := ⟨cursor, acc.length⟩
    let reviews := batches k
    if reviews.length = 0 then
      (some (acc, total), [req])
    else
      let processedBatch := process k reviews
      let acc1 := acc ++ processedBatch
      let total1 := total + reviews.length
      let cursor1 : Option String :=
        if reviews.length = 10 then some (encodeCursor total1) else none
      let hasMore : Bool := !(decide (reviews.length < 10) || cursor1.isNone)
      match limit with
      | some L =>
        if L ≤ acc1.length then (some (acc1.take L, total1), [req])
        else if hasMore then
          let r := fetchReviewsLoop batches process limit fuel (k + 1) cursor1 acc1 total1
          (r.1, req :: r.2)
        else (some (acc1, total1), [req])
      | none =>
        if hasMore then
          let r := fetchReviewsLoop batches process limit fuel (k + 1) cursor1 acc1 total1
          (r.1, req :: r.2)
        else (some (acc1, total1), [req])

/-- productReviews.fetchReviews main loop, started from the initial state
(cursor null, no reviews, zero fetched). -/
def fetchReviews (batches : Nat → List Review) (process : Nat → List Review → List Review)
    (limit : Option Nat) (fuel : Nat) :
    Option (List Review × Nat) × List ReviewsRequest :=
  fetchReviewsLoop batches process limit fuel 0 none [] 0

/-- Running total of raw batch sizes over the first n requests. -/
def batchTotal (batches : Nat → List Review) : Nat → Nat
  | 0 => 0
  | n + 1 => batchTotal batches n + (batches n).length

/-! ## Forum threads pagination loop: forumThreads.fetchThreads

The batch fetch (_fetchThreadsBatch) is an oracle from the request number
to the parsed threads plus the page info it returns (the fetch helper
normalizes an absent pageInfo to hasNextPage false / endCursor null, so
pageInfo is always present on its result). -/
structure ThreadAuthor where
  id : String
  name : String
  username : String
  url : String
  deriving Repr, DecidableEq

/-- Parsed forum-thread record built by forumThreads._parseThreads. -/
structure PHThread where
  title : String
  author : ThreadAuthor
  date : String
  isFeatured : Bool
  upvotesCount : Nat
  commentsCount : Nat
  id : String
  url : String
  slug : String
  description : String
  isPinned : Bool
  deriving Repr, DecidableEq

structure ThreadsPageInfo where
  hasNextPage : Bool
  endCursor : Option String
  deriving Repr, DecidableEq

structure ThreadsBatch where
  threads : List PHThread
  pageInfo : ThreadsPageInfo
  deriving Repr, DecidableEq

structure CursorRequest where
  cursor : Option String
  accBefore : Nat
  deriving Repr, DecidableEq

/-- The while loop of forumThreads.fetchThreads. -/
def fetchThreadsLoop (batches : Nat → ThreadsBatch) (limit : Option Nat) :
    Nat → Nat → Option String → List PHThread →
      Option (List PHThread) × List CursorRequest
  | 0, _, _, _ => (none, [])
  | fuel + 1, k, cursor, acc =>
    let req : CursorRequest := ⟨cursor, acc.length⟩
    let batchResult := batches k
    if batchResult.threads.length = 0 then
      (some acc, [req])
    else
      let acc1 := acc ++ batchResult.threads
      let cursor1 := batchResult.pageInfo.endCursor
      let hasMore := batchResult.pageInfo.hasNextPage
      match limit with
      | some L =>
        if L ≤ acc1.length then (some (acc1.take L), [req])
        else if hasMore then
          let r := fetchThreadsLoop batches limit fuel (k + 1) cursor1 acc1
          (r.1, req :: r.2)
        else (some acc1, [req])
      | none =>
        if hasMore then
          let r := fetchThreadsLoop batches limit fuel (k + 1) cursor1 acc1
          (r.1, req :: r.2)
        else (some acc1, [req])

/-- forumThreads.fetchThreads main loop from the initial state. -/
def fetchThreads (batches : Nat → ThreadsBatch) (limit : Option Nat) (fuel : Nat) :
    Option (List PHThread) × List CursorRequest :=
  fetchThreadsLoop batches limit fuel 0 none []

/-! ## Launches pagination loop: productLaunches.fetchLaunches

pageInfo is read with optional chaining (result.pageInfo?.hasNextPage), so
both the pageInfo object and its fields may be absent. -/
structure LaunchBadge where
  position : Option Nat
  period : Option String
  date : Option String
  deriving Repr, DecidableEq

/-- Parsed launch record built by productLaunches._parseLaunches. -/
structure Launch where
  id : String
  name : String
  slug : String
  tagline : String
  createdAt : String
  votesCount : Nat
  commentsCount : Nat
  dailyRank : Option Nat
  weeklyRank : Option Nat
  monthlyRank : Option Nat
  badges : List LaunchBadge
  deriving Repr, DecidableEq

structure LaunchPageInfo where
  hasNextPage : Option Bool
  endCursor : Option String
  deriving Repr, DecidableEq

structure LaunchesBatch where
  launches : List Launch
  pageInfo : Option LaunchPageInfo
  deriving Repr, DecidableEq

/-- The while loop of productLaunches.fetchLaunches. -/
def fetchLaunchesLoop (batches : Nat → LaunchesBatch) (limit : Option Nat) :
    Nat → Nat → Option String → List Launch →
      Option (List Launch) × List CursorRequest
  | 0, _, _, _ => (none, [])
  | fuel + 1, k, cursor, acc =>
    let req : CursorRequest := ⟨cursor, acc.length⟩
    let result := batches k
    if result.launches.length = 0 then
      (some acc, [req])
    else
      let acc1 := acc ++ result.launches
      let cursor1 := result.pageInfo.bind (·.endCursor)
      let hasMore := jsOrBool (result.pageInfo.bind (·.hasNextPage))
      match limit with
      | some L =>
        if L ≤ acc1.length then (some (acc1.take L), [req])
        else if hasMore then
          let r := fetchLaunchesLoop batches limit fuel (k + 1) cursor1 acc1
          (r.1, req :: r.2)
        else (some acc1, [req])
      | none =>
        if hasMore then
          let r := fetchLaunchesLoop batches limit fuel (k + 1) cursor1 acc1
          (r.1, req :: r.2)
        else (some acc1, [req])

/-- productLaunches.fetchLaunches main loop from the initial state. -/
def fetchLaunches (batches : Nat → LaunchesBatch) (limit : Option Nat) (fuel : Nat) :
    Option (List Launch) × List CursorRequest :=
  fetchLaunchesLoop batches limit fuel 0 none []

/-! ## Launch comments: launchComments (part of the unnamed sources)

Raw GraphQL shapes for the PostPageComments / Comments / CommentsThread
operations, and the parsed comment and reply records built by
_parseCommentNode and _parseReplyNode. -/
structure RawPageInfo where
  hasNextPage : Option Bool
  endCursor : Option String
  deriving Repr, DecidableEq

structure RawAuthor where
  id : Option String
  name : Option String
  username : Option String
  avatarUrl : Option String
  deriving Repr, DecidableEq

structure Author where
  id : String
  name : String
  username : String
  avatarUrl : String
  deriving Repr, DecidableEq

def parseAuthor (u : RawAuthor) : Author :=
  { id := jsOrStr u.id ""
    name := jsOrStr u.name ""
    username := jsOrStr u.username ""
    avatarUrl := jsOrStr u.avatarUrl "" }

/-- Raw reply node (CommentsThread response, replies.edges[].node). -/
structure RawReplyNode where
  id : Option String
  body : Option String
  createdAt : Option String
  votesCount : Option Nat
  isPinned : Option Bool
  isSticky : Option Bool
  user : Option RawAuthor
  deriving Repr, DecidableEq

structure RawReplyEdge where
  node : Option RawReplyNode
  deriving Repr, DecidableEq

/-- response.data.data.comment.replies from the CommentsThread operation. -/
structure RawRepliesData where
  pageInfo : Option RawPageInfo
  edges : Option (List RawReplyEdge)
  deriving Repr, DecidableEq

/-- Parsed launch-comment reply built by launchComments._parseReplyNode. -/
structure LCReply where
  id : String
  parentId : String
  body : String
  createdAt : String
  votesCount : Nat
  isPinned : Bool
  isSticky : Bool
  author : Option Author
  deriving Repr, DecidableEq

/-- launchComments._parseReplyNode. -/
def parseReplyNode (node : Option RawReplyNode) (parentId : String) : Option LCReply :=
  match node with
  | none => none
  | some n =>
    some
      { id := jsOrStr n.id ""
        parentId := parentId
        body := jsOrStr n.body ""
        createdAt := jsOrStr n.createdAt ""
        votesCount := jsOrNat n.votesCount 0
        isPinned := jsOrBool n.isPinned
        isSticky := jsOrBool n.isSticky
        author := n.user.map parseAuthor }

/-- Raw launch comment node (threads.edges[].node). -/
structure RawLCNode where
  id : Option String
  body : Option String
  createdAt : Option String
  votesCount : Option Nat
  isPinned : Option Bool
  isSticky : Option Bool
  repliesCount : Option Nat
  user : Option RawAuthor
  replies : Option RawRepliesData
  deriving Repr, DecidableEq

structure RawLCEdge where
  node : Option RawLCNode
  deriving Repr, DecidableEq

/-- Parsed launch comment built by launchComments._parseCommentNode. -/
structure LCComment where
  id : String
  body : String
  createdAt : String
  votesCount : Nat
  isPinned : Bool
  isSticky : Bool
  repliesCount : Nat
  author : Option Author
  replies : List LCReply
  hasMoreReplies : Bool
  repliesEndCursor : Option String
  deriving Repr, DecidableEq

/-- launchComments._parseCommentNode: parses the main comment and the
initial page of replies embedded in the node. -/
def parseLCNode (node : Option RawLCNode) : Option LCComment :=
  match node with
  | none => none
  | some n =>
    let initialReplies :=
      match n.replies with
      | some rd =>
        match rd.edges with
        | some edges => edges.filterMap fun e => parseReplyNode e.node (jsOrStr n.id "")
        | none => []
      | none => []
    let hasMoreReplies :=
      match n.replies with
      | some rd =>
        match rd.pageInfo with
        | some pi => jsOrBool pi.hasNextPage
        | none => false
      | none => false
    let repliesEndCursor : Option String :=
      match n.replies with
      | some rd =>
        match rd.pageInfo with
        | some pi => pi.endCursor
        | none => none
      | none => none
    some
      { id := jsOrStr n.id ""
        body := jsOrStr n.body ""
        createdAt := jsOrStr n.createdAt ""
        votesCount := jsOrNat n.votesCount 0
        isPinned := jsOrBool n.isPinned
        isSticky := jsOrBool n.isSticky
        repliesCount := jsOrNat n.repliesCount 0
        author := n.user.map parseAuthor
        replies := initialReplies
        hasMoreReplies := hasMoreReplies
        repliesEndCursor := repliesEndCursor }

/-! ### Reply expansion: launchComments._expandReplies -/
structure ReplyRequest where
  cursor : String
  excludedCommentIds : List String
  deriving Repr, DecidableEq

/-- Replies parsed from one CommentsThread response for a given comment. -/
def pageNewReplies (commentId : String) (d : RawRepliesData) : List LCReply :=
  match d.edges with
  | some edges => edges.filterMap fun e => parseReplyNode e.node commentId
  | none => []

/-- The while loop of launchComments._expandReplies.  fuel is the number
of fetch attempts still allowed (MAX_FETCH_ATTEMPTS minus fetchAttempts);
the result is error exactly when a page fetch threw, and otherwise the
accumulated reply list.  The trace records every issued request with its
cursor and excludedCommentIds payload fields. -/
def expandRepliesLoop (fetch : Nat → ReplyRequest → Except Unit (Option RawRepliesData))
    (commentId : String) (initialExcludedIds : List String) :
    Nat → Nat → String → List LCReply → Bool →
      Except Unit (List LCReply) × List ReplyRequest
  | 0, _, _, acc, _ => (.ok acc, [])
  | fuel + 1, attempts, cursor, acc, hasMore =>
    if !hasMore then (.ok acc, [])
    else
      let attempts1 := attempts + 1
      let req : ReplyRequest :=
        ⟨cursor, if attempts1 = 1 then initialExcludedIds else []⟩
      match fetch attempts1 req with
      | .error e => (.error e, [req])
      | .ok none => (.ok acc, [req])
      | .ok (some d) =>
        let hasNext := jsOrBool (d.pageInfo.bind (·.hasNextPage))
        let cursor1 := jsOrStr (d.pageInfo.bind (·.endCursor)) ""
        match d.edges with
        | none => (.ok acc, [req])
        | some edges =>
          if edges.length = 0 then (.ok acc, [req])
          else
            let newReplies := edges.filterMap fun e => parseReplyNode e.node commentId
            let existingIds := acc.map (·.id)
            let uniqueNewReplies := newReplies.filter fun r => !existingIds.contains r.id
            let r := expandRepliesLoop fetch commentId initialExcludedIds fuel attempts1
              cursor1 (acc ++ uniqueNewReplies) hasNext
            (r.1, req :: r.2)

/-- launchComments._expandReplies, returning the updated comment and the
trace of reply-page requests.  On a normal loop exit the comment receives
the accumulated replies with hasMoreReplies cleared; on a fetch exception
the catch block only sets hasMoreReplies back to true. -/
def expandRepliesWithTrace (fetch : Nat → ReplyRequest → Except Unit (Option RawRepliesData))
    (comment : LCComment) : LCComment × List ReplyRequest :=
  if !comment.hasMoreReplies && comment.repliesCount ≤ comment.replies.length then
    (comment, [])
  else
    let initialExcludedIds := comment.replies.map (·.id)
    let r := expandRepliesLoop fetch comment.id initialExcludedIds 5 0
      (comment.repliesEndCursor.getD "") comment.replies comment.hasMoreReplies
    match r.1 with
    | .ok allReplies =>
      ({ comment with replies := allReplies, hasMoreReplies := false, repliesEndCursor := none },
        r.2)
    | .error _ => ({ comment with hasMoreReplies := true }, r.2)

def expandReplies (fetch : Nat → ReplyRequest → Except Unit (Option RawRepliesData))
    (comment : LCComment) : LCComment :=
  (expandRepliesWithTrace fetch comment).1

/-! ### Two-stage launch comment fetch: launchComments.fetchLaunchComments -/
/-- post.threads connection of the PostPageComments / Comments responses. -/
structure RawThreadsConn where
  edges : Option (List RawLCEdge)
  pageInfo : Option RawPageInfo
  deriving Repr, DecidableEq

/-- response.data.data.post of the PostPageComments operation. -/
structure RawPost where
  id : Option String
  commentsCount : Option Nat
  threads : Option RawThreadsConn
  deriving Repr, DecidableEq

/-- What _fetchFirstBatch hands back to the loop. -/
structure FirstBatchResult where
  comments : List LCComment
  hasNextPage : Bool
  nextCursor : Option String
  totalCount : Nat
  postId : Option String
  deriving Repr, DecidableEq

/-- launchComments._fetchFirstBatch: an exception or a response without
data.post yields the empty result with postId null; otherwise the comments
and page info are extracted from post.threads. -/
def parseFirstBatch (resp : Except Unit (Option RawPost)) : FirstBatchResult :=
  match resp with
  | .error _ => ⟨[], false, none, 0, none⟩
  | .ok none => ⟨[], false, none, 0, none⟩
  | .ok (some post) =>
    let comments :=
      match post.threads with
      | some t =>
        match t.edges with
        | some edges => edges.filterMap fun e => parseLCNode e.node
        | none => []
      | none => []
    let hasNextPage :=
      match post.threads with
      | some t =>
        match t.pageInfo with
        | some pi => jsOrBool pi.hasNextPage
        | none => false
      | none => false
    let nextCursor : Option String :=
      match post.threads with
      | some t =>
        match t.pageInfo with
        | some pi => pi.endCursor
        | none => none
      | none => none
    ⟨comments, hasNextPage, nextCursor, jsOrNat post.commentsCount 0, post.id⟩

/-- response.data.data of the Comments operation: the threads connection
is found under subject or under commentable. -/
structure RawSubject where
  threads : Option RawThreadsConn
  deriving Repr, DecidableEq

structure RawNextData where
  subject : Option RawSubject
  commentable : Option RawSubject
  deriving Repr, DecidableEq

structure NextBatchResult where
  comments : List LCComment
  hasNextPage : Bool
  nextCursor : Option String
  deriving Repr, DecidableEq

/-- Comments and page info extracted from one threads connection
(_fetchNextCommentsBatch, shared by the subject and commentable paths;
the parse runs only when edges is a nonempty array). -/
def parseThreadsConn (t : RawThreadsConn) : NextBatchResult :=
  let comments :=
    match t.edges with
    | some edges =>
      if edges.length = 0 then []
      else edges.filterMap fun e => parseLCNode e.node
    | none => []
  let hasNextPage :=
    match t.pageInfo with
    | some pi => jsOrBool pi.hasNextPage
    | none => false
  let nextCursor : Option String :=
    match t.pageInfo with
    | some pi => pi.endCursor
    | none => none
  ⟨comments, hasNextPage, nextCursor⟩

/-- launchComments._fetchNextCommentsBatch: an exception yields the empty
result with hasNextPage false; otherwise the subject.threads or
commentable.threads connection is parsed when present. -/
def parseNextBatch (resp : Except Unit RawNextData) : NextBatchResult :=
  match resp with
  | .error _ => ⟨[], false, none⟩
  | .ok d =>
    match d.subject with
    | some s =>
      match s.threads with
      | some t => parseThreadsConn t
      | none =>
        match d.commentable with
        | some c =>
          match c.threads with
          | some t => parseThreadsConn t
          | none => ⟨[], false, none⟩
        | none => ⟨[], false, none⟩
    | none =>
      match d.commentable with
      | some c =>
        match c.threads with
        | some t => parseThreadsConn t
        | none => ⟨[], false, none⟩
      | none => ⟨[], false, none⟩

/-- Per-comment expansion step inside the fetch loop: _expandReplies is
invoked (modelled by the abstract expand function, settled separately by
the expandReplies theorems) exactly for comments flagged incomplete. -/
def expandIfNeeded (fetchAllReplies : Bool) (expand : LCComment → LCComment)
    (c : LCComment) : LCComment :=
  if fetchAllReplies && (c.hasMoreReplies || decide (c.replies.length < c.repliesCount)) then
    expand c
  else c

/-- Result object of fetchLaunchComments (commentCount is the running
totalComments counter, parsedComments the possibly trimmed list). -/
structure LCResult where
  commentCount : Nat
  totalExpectedComments : Nat
  parsedComments : List LCComment
  deriving Repr, DecidableEq

structure LCRequest where
  batchNumber : Nat
  cursor : String
  postId : Option String
  deriving Repr, DecidableEq

/-- Shared tail of one fetchLaunchComments loop iteration: process the
comments of the batch, update pagination state, apply the limit check. -/
inductive LCStep where
  | done (res : LCResult)
  | next (cursor : String) (acc : List LCComment) (total : Nat)
  deriving Repr, DecidableEq

def lcProcessBatch (limit : Option Nat) (fetchAllReplies : Bool)
    (expand : LCComment → LCComment) (comments : List LCComment)
    (hasNextPage : Bool) (nextCursor : Option String)
    (acc : List LCComment) (total texp : Nat) : LCStep :=
  let newComments := comments.map (expandIfNeeded fetchAllReplies expand)
  let acc1 := if comments.length = 0 then acc else acc ++ newComments
  let total1 := if comments.length = 0 then total else total + newComments.length
  let hasMore := hasNextPage
  let cursor1 := jsOrStr nextCursor ""
  match limit with
  | some L =>
    if L ≤ total1 then
      .done ⟨total1, texp, if L < acc1.length then acc1.take L else acc1⟩
    else if hasMore then .next cursor1 acc1 total1
    else .done ⟨total1, texp, acc1⟩
  | none =>
    if hasMore then .next cursor1 acc1 total1
    else .done ⟨total1, texp, acc1⟩

/-- The while loop of fetchLaunchComments.  firstResp is the
PostPageComments response, nextResp the Comments response for each later
batch number; fuel bounds the number of loop iterations. -/
def lcLoop (firstResp : Except Unit (Option RawPost)) (nextResp : Nat → Except Unit RawNextData)
    (limit : Option Nat) (fetchAllReplies : Bool) (expand : LCComment → LCComment) :
    Nat → Nat → Bool → Option String → String → List LCComment → Nat → Nat →
      Option LCResult × List LCRequest
  | 0, _, _, _, _, _, _, _ => (none, [])
  | fuel + 1, bn, firstBatch, postId, cursor, acc, total, texp =>
    if firstBatch then
      let req : LCRequest := ⟨bn, cursor, none⟩
      let result := parseFirstBatch firstResp
      match result.postId with
      | none => (some ⟨total, texp, acc⟩, [req])
      | some pid =>
        let texp1 := if texp = 0 then result.totalCount else texp
        match lcProcessBatch limit fetchAllReplies expand result.comments
            result.hasNextPage result.nextCursor acc total texp1 with
        | .done res => (some res, [req])
        | .next cursor1 acc1 total1 =>
          let r := lcLoop firstResp nextResp limit fetchAllReplies expand fuel
            (bn + 1) false (some pid) cursor1 acc1 total1 texp1
          (r.1, req :: r.2)
    else
      let req : LCRequest := ⟨bn, cursor, postId⟩
      let result := parseNextBatch (nextResp bn)
      match lcProcessBatch limit fetchAllReplies expand result.comments
          result.hasNextPage result.nextCursor acc total texp with
      | .done res => (some res, [req])
      | .next cursor1 acc1 total1 =>
        let r := lcLoop firstResp nextResp limit fetchAllReplies expand fuel
          (bn + 1) false postId cursor1 acc1 total1 texp
        (r.1, req :: r.2)

/-- launchComments.fetchLaunchComments from the initial state (batch 1,
empty cursor, nothing accumulated). -/
def fetchLaunchComments (firstResp : Except Unit (Option RawPost))
    (nextResp : Nat → Except Unit RawNextData) (limit : Option Nat)
    (fetchAllReplies : Bool) (expand : LCComment → LCComment) (fuel : Nat) :
    Option LCResult × List LCRequest :=
  lcLoop firstResp nextResp limit fetchAllReplies expand fuel 1 true none "" [] 0 0

/-! ## Thread comment replies: threadComments (part of the unnamed sources)

fetchCommentReplies and fetchAllRepliesForComment.  The parsed comment
node of this module (threadComments._parseCommentNode) has its own shape,
and replies fetched by fetchCommentReplies may carry a one-level nested
reply decoration. -/
/-- Parsed node built by threadComments._parseCommentNode. -/
structure TCNode where
  id : String
  body : String
  createdAt : String
  votesCount : Nat
  isPinned : Bool
  isSticky : Bool
  author : Option Author
  parentId : Option String
  deriving Repr, DecidableEq

/-- Scalar part of a raw node consumed by threadComments._parseCommentNode
(node.parent.id supplies parentId when a parent object is present). -/
structure RawTCNodeBase where
  id : Option String
  body : Option String
  createdAt : Option String
  votesCount : Option Nat
  isPinned : Option Bool
  isSticky : Option Bool
  user : Option RawAuthor
  parent : Option String
  deriving Repr, DecidableEq

/-- threadComments._parseCommentNode on a non-null node. -/
def parseTCNode (n : RawTCNodeBase) : TCNode :=
  { id := jsOrStr n.id ""
    body := jsOrStr n.body ""
    createdAt := jsOrStr n.createdAt ""
    votesCount := jsOrNat n.votesCount 0
    isPinned := jsOrBool n.isPinned
    isSticky := jsOrBool n.isSticky
    author := n.user.map parseAuthor
    parentId := n.parent }

structure RawNestedEdge where
  node : Option RawTCNodeBase
  deriving Repr, DecidableEq

/-- Raw reply node of a CommentsThread response in the thread module: the
base comment fields plus the nested repliesCount and one level of nested
reply edges read by fetchCommentReplies. -/
structure RawTReplyNode where
  base : RawTCNodeBase
  repliesCount : Option Nat
  nestedEdges : Option (List RawNestedEdge)
  deriving Repr, DecidableEq

structure RawTReplyEdge where
  node : Option RawTReplyNode
  deriving Repr, DecidableEq

structure RawTRepliesData where
  edges : Option (List RawTReplyEdge)
  pageInfo : Option RawPageInfo
  deriving Repr, DecidableEq

/-- response.data.data.comment of the CommentsThread operation. -/
structure RawTCommentData where
  repliesCount : Option Nat
  replies : Option RawTRepliesData
  deriving Repr, DecidableEq

/-- A reply held by a thread comment: a parsed node, optionally decorated
with the nested-replies fields added by fetchCommentReplies. -/
structure TReply where
  node : TCNode
  hasNestedReplies : Option Bool
  nestedRepliesCount : Option Nat
  nestedReplies : Option (List TCNode)
  deriving Repr, DecidableEq

/-- An initial reply attached by threadComments.parseComments carries no
nested-reply decoration. -/
def plainTReply (n : TCNode) : TReply := ⟨n, none, none, none⟩

/-- Thread comment as assembled by threadComments.parseComments. -/
structure TComment where
  node : TCNode
  replies : List TReply
  hasMoreReplies : Bool
  repliesEndCursor : Option String
  deriving Repr, DecidableEq

/-- Wire request of the CommentsThread operation issued by
fetchCommentReplies; excludedCommentIds is forwarded only when the cursor
is the empty string. -/
structure TReplyRequest where
  cursor : Option String
  excludedCommentIds : List String
  deriving Repr, DecidableEq

structure FetchRepliesResult where
  replies : List TReply
  hasNextPage : Bool
  nextCursor : Option String
  totalRepliesCount : Nat
  deriving Repr, DecidableEq

/-- Parse one raw reply edge of fetchCommentReplies, attaching the
nested-reply decoration when the raw node reports nested replies. -/
def parseTReplyEdge (e : RawTReplyEdge) : Option TReply :=
  match e.node with
  | none => none
  | some n =>
    let reply := parseTCNode n.base
    let nestedCount := jsOrNat n.repliesCount 0
    if nestedCount = 0 then some (plainTReply reply)
    else
      let nested : Option (List TCNode) :=
        match n.nestedEdges with
        | some edges =>
          some (edges.filterMap fun ne => ne.node.map parseTCNode)
        | none => none
      some ⟨reply, some true, some nestedCount, nested⟩

/-- threadComments.fetchCommentReplies: builds the wire request (the
exclusion list is sent only with an empty cursor), and on an exception or
a response without data.comment returns the empty result. -/
def fetchCommentReplies (resp : Except Unit (Option RawTCommentData))
    (cursor : Option String) (excludedCommentIds : List String) :
    FetchRepliesResult × TReplyRequest :=
  let req : TReplyRequest :=
    ⟨cursor, if cursor = some "" then excludedCommentIds else []⟩
  match resp with
  | .error _ => (⟨[], false, none, 0⟩, req)
  | .ok none => (⟨[], false, none, 0⟩, req)
  | .ok (some commentData) =>
    let totalRepliesCount := jsOrNat commentData.repliesCount 0
    match commentData.replies with
    | none => (⟨[], false, none, totalRepliesCount⟩, req)
    | some repliesData =>
      let replies :=
        match repliesData.edges with
        | some edges => edges.filterMap parseTReplyEdge
        | none => []
      let hasNextPage :=
        match repliesData.pageInfo with
        | some pi => jsOrBool pi.hasNextPage
        | none => false
      let nextCursor : Option String :=
        match repliesData.pageInfo with
        | some pi => some (jsOrStr pi.endCursor "")
        | none => none
      (⟨replies, hasNextPage, nextCursor, totalRepliesCount⟩, req)

/-- JS truthiness of the loop cursor of fetchAllRepliesForComment. -/
def cursorTruthy : Option String → Bool
  | none => false
  | some s => s ≠ ""

/-- Pagination loop of fetchAllRepliesForComment (fetchAttempts 2..4 while
hasMoreReplies and the cursor are truthy; fuel is 5 minus the attempts
already made).  Each iteration passes the accumulated reply ids as the
exclusion-list argument, which the wire request then drops because the
cursor is nonempty. -/
def fetchAllRepliesLoop (fetch : Nat → Except Unit (Option RawTCommentData)) :
    Nat → Nat → Bool → Option String → List TReply →
      List TReply × List TReplyRequest
  | 0, _, _, _, acc => (acc, [])
  | fuel + 1, attempts, hasMore, cursor, acc =>
    if !(hasMore && cursorTruthy cursor) then (acc, [])
    else
      let attempts1 := attempts + 1
      let excludedCommentIds := acc.map (·.node.id)
      let fr := fetchCommentReplies (fetch attempts1) cursor excludedCommentIds
      let nextResult := fr.1
      let acc1 :=
        if nextResult.replies.length = 0 then acc
        else
          let existingIds := acc.map (·.node.id)
          acc ++ nextResult.replies.filter fun r => !existingIds.contains r.node.id
      let r := fetchAllRepliesLoop fetch fuel attempts1 nextResult.hasNextPage
        nextResult.nextCursor acc1
      (r.1, fr.2 :: r.2)

/-- threadComments.fetchAllRepliesForComment: an early return when the
comment is not flagged or has no stored cursor; otherwise one fresh fetch
with empty cursor and an explicitly empty exclusion list (merged against
the initial replies through a membership map that is never extended with
the new replies), then the bounded pagination loop.  The whole body sits
in a try block whose catch returns comment.replies, but every page fetch
already absorbs its own exceptions, so the result below is total. -/
def fetchAllRepliesForComment (fetch : Nat → Except Unit (Option RawTCommentData))
    (comment : TComment) : List TReply × List TReplyRequest :=
  if !comment.hasMoreReplies || !cursorTruthy comment.repliesEndCursor then
    (comment.replies, [])
  else
    let fr := fetchCommentReplies (fetch 1) (some "") []
    let result := fr.1
    let initIds := comment.replies.map (·.node.id)
    let allReplies :=
      if result.replies.length = 0 then comment.replies
      else comment.replies ++ result.replies.filter fun r => !initIds.contains r.node.id
    let r := fetchAllRepliesLoop fetch 4 1 result.hasNextPage result.nextCursor allReplies
    (r.1, fr.2 :: r.2)

/-! ## Maker correlator: productMakers._parseMakers

Input shapes: launches with their launch comments attached (as produced by
fetchLaunchesWithComments) and formatted forum threads with their
comments.  Only the fields the correlator reads are modelled on the input
records.  The three correlated-activity fields of the output maker are
typed Option to represent a possibly absent JS object field; the parse
always assigns them. -/
structure FAuthorDetails where
  id : String
  name : String
  deriving Repr, DecidableEq

/-- Formatted forum reply (one nesting level, as scanned). -/
structure FReply where
  id : String
  authorDetails : Option FAuthorDetails
  content : String
  date : String
  upvotesCount : Nat
  parentId : Option String
  deriving Repr, DecidableEq

structure FThreadComment where
  id : String
  authorDetails : Option FAuthorDetails
  content : String
  date : String
  upvotesCount : Nat
  replies : Option (List FReply)
  deriving Repr, DecidableEq

structure FThread where
  id : String
  title : String
  date : String
  upvotesCount : Nat
  commentsCount : Nat
  authorDetails : Option FAuthorDetails
  comments : Option (List FThreadComment)
  deriving Repr, DecidableEq

/-- Launch record as consumed by the correlator (with the comments that
fetchLaunchesWithComments attached). -/
structure CorrLaunch where
  id : String
  name : String
  comments : Option (List LCComment)
  deriving Repr, DecidableEq

structure CorrLaunchesData where
  launches : Option (List CorrLaunch)
  deriving Repr, DecidableEq

structure CorrThreadsData where
  threads : Option (List FThread)
  deriving Repr, DecidableEq

/-- Entry pushed into launchComments (top-level entries carry isSticky and
no isReply field, reply entries carry parentId and isReply true). -/
structure LaunchCommentActivity where
  commentId : String
  parentId : Option String
  launchId : String
  launchName : String
  body : String
  createdAt : String
  votesCount : Nat
  isSticky : Option Bool
  isReply : Option Bool
  deriving Repr, DecidableEq

structure ForumCommentActivity where
  commentId : String
  parentId : Option String
  threadId : String
  threadTitle : String
  content : String
  date : String
  upvotesCount : Nat
  isReply : Bool
  deriving Repr, DecidableEq

structure ThreadAuthoredActivity where
  threadId : String
  title : String
  date : String
  upvotesCount : Nat
  commentsCount : Nat
  deriving Repr, DecidableEq

structure AuthorActivity where
  launchComments : List LaunchCommentActivity
  forumComments : List ForumCommentActivity
  forumThreadsAuthored : List ThreadAuthoredActivity
  deriving Repr, DecidableEq

def emptyActivity : AuthorActivity := ⟨[], [], []⟩

/-- The commentsByAuthor object, as an insertion-ordered association
list. -/
def AuthorIndex := List (String × AuthorActivity)

def lookupAuthor : AuthorIndex → String → Option AuthorActivity
  | [], _ => none
  | (k, v) :: rest, id => if k = id then some v else lookupAuthor rest id

/-- commentsByAuthor[id] = commentsByAuthor[id] or fresh empty entry,
then mutate that entry. -/
def updateActivity : AuthorIndex → String → (AuthorActivity → AuthorActivity) →
    AuthorIndex
  | [], id, f => [(id, f emptyActivity)]
  | (k, v) :: rest, id, f =>
    if k = id then (k, f v) :: rest else (k, v) :: updateActivity rest id f

/-- JS truthiness guard on an optional author id (absent objects and empty
ids are skipped). -/
def authorIdOf (a : Option FAuthorDetails) : Option String :=
  match a with
  | some d => if d.id = "" then none else some d.id
  | none => none

def lcAuthorIdOf (a : Option Author) : Option String :=
  match a with
  | some d => if d.id = "" then none else some d.id
  | none => none

/-- Scan one launch comment (and its replies) into the index. -/
def scanLaunchComment (launch : CorrLaunch) (m : AuthorIndex) (c : LCComment) :
    AuthorIndex :=
  let m1 :=
    match lcAuthorIdOf c.author with
    | some aid =>
      updateActivity m aid fun act =>
        { act with
          launchComments := act.launchComments ++
            [⟨c.id, none, launch.id, launch.name, c.body, c.createdAt, c.votesCount,
              some c.isSticky, none⟩] }
    | none => m
  c.replies.foldl
    (fun acc r =>
      match lcAuthorIdOf r.author with
      | some aid =>
        updateActivity acc aid fun act =>
          { act with
            launchComments := act.launchComments ++
              [⟨r.id, some r.parentId, launch.id, launch.name, r.body, r.createdAt,
                r.votesCount, none, some true⟩] }
      | none => acc)
    m1

def scanLaunch (m : AuthorIndex) (launch : CorrLaunch) : AuthorIndex :=
  match launch.comments with
  | some cs => cs.foldl (scanLaunchComment launch) m
  | none => m

/-- Scan one forum thread comment (and its replies) into the index. -/
def scanThreadComment (thread : FThread) (m : AuthorIndex) (c : FThreadComment) :
    AuthorIndex :=
  let m1 :=
    match authorIdOf c.authorDetails with
    | some aid =>
      updateActivity m aid fun act =>
        { act with
          forumComments := act.forumComments ++
            [⟨c.id, none, thread.id, thread.title, c.content, c.date, c.upvotesCount,
              false⟩] }
    | none => m
  match c.replies with
  | some rs =>
    rs.foldl
      (fun acc r =>
        match authorIdOf r.authorDetails with
        | some aid =>
          updateActivity acc aid fun act =>
            { act with
              forumComments := act.forumComments ++
                [⟨r.id, r.parentId, thread.id, thread.title, r.content, r.date,
                  r.upvotesCount, true⟩] }
        | none => acc)
      m1
  | none => m1

def scanThread (m : AuthorIndex) (thread : FThread) : AuthorIndex :=
  let m1 :=
    match thread.comments with
    | some cs => cs.foldl (scanThreadComment thread) m
    | none => m
  match authorIdOf thread.authorDetails with
  | some aid =>
    updateActivity m1 aid fun act =>
      { act with
        forumThreadsAuthored := act.forumThreadsAuthored ++
          [⟨thread.id, thread.title, thread.date, thread.upvotesCount,
            thread.commentsCount⟩] }
  | none => m1

/-- First half of the commentsByAuthor pre-processing pass of
_parseMakers: the launch-comments scan, starting from the empty object. -/
def buildLaunchIndex (launchesData : Option CorrLaunchesData) : AuthorIndex :=
  match launchesData with
  | some ld =>
    match ld.launches with
    | some launches => launches.foldl scanLaunch []
    | none => []
  | none => []

/-- The commentsByAuthor pre-processing pass of _parseMakers: the
forum-threads scan runs over the index left by the launch scan. -/
def buildCommentsByAuthor (launchesData : Option CorrLaunchesData)
    (threadsData : Option CorrThreadsData) : AuthorIndex :=
  match threadsData with
  | some td =>
    match td.threads with
    | some threads => threads.foldl scanThread (buildLaunchIndex launchesData)
    | none => buildLaunchIndex launchesData
  | none => buildLaunchIndex launchesData

structure RawMadePostNode where
  id : String
  slug : String
  name : String
  thumbnailImageUuid : Option String
  deriving Repr, DecidableEq

structure RawMadePostEdge where
  node : RawMadePostNode
  deriving Repr, DecidableEq

structure RawMadePosts where
  edges : List RawMadePostEdge
  deriving Repr, DecidableEq

structure RawMaker where
  id : String
  name : String
  username : String
  headline : Option String
  avatarUrl : String
  followersCount : Option Nat
  madePosts : Option RawMadePosts
  deriving Repr, DecidableEq

structure RawMakerEdge where
  node : Option RawMaker
  deriving Repr, DecidableEq

structure RawMakersData where
  edges : Option (List RawMakerEdge)
  deriving Repr, DecidableEq

structure MadePost where
  id : String
  slug : String
  name : String
  thumbnailUrl : Option String
  deriving Repr, DecidableEq

structure Maker where
  id : String
  name : String
  username : String
  headline : Option String
  avatarUrl : String
  followersCount : Nat
  madePostsCount : Nat
  madePosts : List MadePost
  launchComments : Option (List LaunchCommentActivity)
  forumComments : Option (List ForumCommentActivity)
  forumThreadsAuthored : Option (List ThreadAuthoredActivity)
  deriving Repr, DecidableEq

/-- headline || null. -/
def jsOrNull (a : Option String) : Option String :=
  match a with
  | some s => if s = "" then none else some s
  | none => none

/-- productMakers._parseMakers (correlating variant): builds the author
index from the launches and threads data and maps every maker edge to the
output record, attaching the three correlated-activity sequences. -/
def parseMakers (makersData : Option RawMakersData)
    (launchesData : Option CorrLaunchesData) (threadsData : Option CorrThreadsData) :
    List Maker :=
  match makersData with
  | none => []
  | some md =>
    match md.edges with
    | none => []
    | some edges =>
      let commentsByAuthor := buildCommentsByAuthor launchesData threadsData
      edges.filterMap fun edge =>
        match edge.node with
        | none => none
        | some maker =>
          let madePosts :=
            match maker.madePosts with
            | some mp =>
              mp.edges.map fun postEdge =>
                ({ id := postEdge.node.id
                   slug := postEdge.node.slug
                   name := postEdge.node.name
                   thumbnailUrl :=
                     match postEdge.node.thumbnailImageUuid with
                     | some u =>
                       if u = "" then none
                       else some ("https://ph-files.imgix.net/" ++ u)
                     | none => none } : MadePost)
            | none => []
          some
            { id := maker.id
              name := maker.name
              username := maker.username
              headline := jsOrNull maker.headline
              avatarUrl := maker.avatarUrl
              followersCount := jsOrNat maker.followersCount 0
              madePostsCount := madePosts.length
              madePosts := madePosts
              launchComments :=
                some (((lookupAuthor commentsByAuthor maker.id).map
                  (·.launchComments)).getD [])
              forumComments :=
                some (((lookupAuthor commentsByAuthor maker.id).map
                  (·.forumComments)).getD [])
              forumThreadsAuthored :=
                some (((lookupAuthor commentsByAuthor maker.id).map
                  (·.forumThreadsAuthored)).getD []) }

/-- All author identifiers encountered during the scan (used to state
absence from the scanned threads and launches). -/
def launchCommentIds (c : LCComment) : List String :=
  (match lcAuthorIdOf c.author with
   | some aid => [aid]
   | none => []) ++
  c.replies.filterMap fun r => lcAuthorIdOf r.author

def corrLaunchIds (l : CorrLaunch) : List String :=
  match l.comments with
  | some cs => cs.flatMap launchCommentIds
  | none => []

def threadCommentIds (c : FThreadComment) : List String :=
  (match authorIdOf c.authorDetails with
   | some aid => [aid]
   | none => []) ++
  (match c.replies with
   | some rs => rs.filterMap fun r => authorIdOf r.authorDetails
   | none => [])

def fThreadIds (t : FThread) : List String :=
  (match t.comments with
   | some cs => cs.flatMap threadCommentIds
   | none => []) ++
  (match authorIdOf t.authorDetails with
   | some aid => [aid]
   | none => [])

def scannedAuthorIds (launchesData : Option CorrLaunchesData)
    (threadsData : Option CorrThreadsData) : List String :=
  (match launchesData with
   | some ld =>
     match ld.launches with
     | some launches => launches.flatMap corrLaunchIds
     | none => []
   | none => []) ++
  (match threadsData with
   | some td =>
     match td.threads with
     | some threads => threads.flatMap fThreadIds
     | none => []
   | none => [])

/-- Contribution of batch bn to the accumulated comment list of
fetchLaunchComments: nothing for a first batch without a post id,
otherwise the parsed comments of the batch after per-comment reply
expansion. -/
def lcBatchItems (firstResp : Except Unit (Option RawPost))
    (nextResp : Nat → Except Unit RawNextData) (fetchAllReplies : Bool)
    (expand : LCComment → LCComment) (bn : Nat) : List LCComment :=
  if bn = 1 then
    match (parseFirstBatch firstResp).postId with
    | none => []
    | some _ => (parseFirstBatch firstResp).comments.map (expandIfNeeded fetchAllReplies expand)
  else (parseNextBatch (nextResp bn)).comments.map (expandIfNeeded fetchAllReplies expand)

/-- Invariant carried through the sentiment write-back: the enhanced list
keeps ids and ratings positionally, and positions with a written
sentiment had no rating in the original collection. -/
def SentimentInv (reviews enhanced : List Review) : Prop :=
  enhanced.length = reviews.length ∧
  ∀ i r0, reviews.get? i = some r0 →
    ∃ r1, enhanced.get? i = some r1 ∧ r1.id = r0.id ∧ r1.rating = r0.rating ∧
      (r1.sentiment ≠ none → r0.rating = none)

/-! # Concrete fixtures used by witnesses and counterexamples -/
def reviewW : Review :=
  { reviewer := ⟨"Ann", "ann"⟩, usedToBuild := "", text := "great tool", rating := some 5
    sentiment := none, date := "2025-01-01", helpfulVotes := 0, id := "rev1", url := ""
    isVerified := false, commentsCount := 0, hasVoted := false }

def reviewNoRatingW : Review :=
  { reviewer := ⟨"Bob", "bob"⟩, usedToBuild := "", text := "nice", rating := none
    sentiment := none, date := "2025-01-02", helpfulVotes := 0, id := "rev2", url := ""
    isVerified := false, commentsCount := 0, hasVoted := false }

def batchesW : Nat → List Review := fun k =>
  if k = 0 then List.replicate 10 reviewW else if k = 1 then [reviewNoRatingW] else []

/-- Two reviews sharing the empty id: the first rated, the second not. -/
def reviewDupA : Review :=
  { reviewer := ⟨"Ann", "ann"⟩, usedToBuild := "", text := "great", rating := some 5
    sentiment := none, date := "", helpfulVotes := 0, id := "", url := ""
    isVerified := false, commentsCount := 0, hasVoted := false }

def reviewDupB : Review :=
  { reviewer := ⟨"Bob", "bob"⟩, usedToBuild := "", text := "love it", rating := none
    sentiment := none, date := "", helpfulVotes := 0, id := "", url := ""
    isVerified := false, commentsCount := 0, hasVoted := false }

def reviewsCX2 : List Review := [reviewDupA, reviewDupB]

def extractorCX2 : Nat → List (Option String) := fun _ => [some "positive"]

def reviewsW2 : List Review :=
  [{ reviewW with id := "a" }, { reviewNoRatingW with id := "b" }]

def extractorW2 : Nat → List (Option String) := fun _ => [some "positive"]

def threadW : PHThread :=
  { title := "T", author := ⟨"u1", "N", "un", ""⟩, date := "2025", isFeatured := false
    upvotesCount := 0, commentsCount := 0, id := "t1", url := "", slug := "t"
    description := "", isPinned := false }

def tbatchesW : Nat → ThreadsBatch := fun _ =>
  ⟨[threadW, threadW, threadW], ⟨true, some "c"⟩⟩

def launchW : Launch :=
  { id := "l1", name := "L", slug := "l", tagline := "tag", createdAt := "2025"
    votesCount := 0, commentsCount := 0, dailyRank := none, weeklyRank := none
    monthlyRank := none, badges := [] }

def lbatchesW : Nat → LaunchesBatch := fun _ =>
  ⟨[launchW, launchW], some ⟨some true, some "c"⟩⟩

def rawLCNodeW (i : String) : RawLCNode :=
  { id := some i, body := some "hello", createdAt := some "2025", votesCount := some 1
    isPinned := some false, isSticky := some false, repliesCount := some 0
    user := none, replies := none }

def firstRespW : Except Unit (Option RawPost) :=
  .ok (some
    { id := some "post1"
      commentsCount := some 3
      threads := some
        { edges := some [⟨some (rawLCNodeW "c1")⟩, ⟨some (rawLCNodeW "c2")⟩,
            ⟨some (rawLCNodeW "c3")⟩]
          pageInfo := some ⟨some false, none⟩ } })

def firstRespFailW : Except Unit (Option RawPost) := .error ()

def nextRespW : Nat → Except Unit RawNextData := fun _ => .error ()

/-- Reply already held by the comment before expansion. -/
def replyR1 : LCReply :=
  { id := "r1", parentId := "c1", body := "first", createdAt := "2025", votesCount := 0
    isPinned := false, isSticky := false, author := none }

def rawReplyNodeR2 : RawReplyNode :=
  { id := some "r2", body := some "second", createdAt := some "2025", votesCount := some 0
    isPinned := some false, isSticky := some false, user := none }

/-- Comment with one held reply and more reply pages to fetch. -/
def commentCX3 : LCComment :=
  { id := "c1", body := "top", createdAt := "2025", votesCount := 0, isPinned := false
    isSticky := false, repliesCount := 3, author := none, replies := [replyR1]
    hasMoreReplies := true, repliesEndCursor := some "cur" }

/-- First reply page delivers r2 and reports another page; the second
page fetch throws. -/
def pageCX3 : RawRepliesData :=
  { pageInfo := some ⟨some true, some "cur2"⟩, edges := some [⟨some rawReplyNodeR2⟩] }

def fetchCX3 : Nat → ReplyRequest → Except Unit (Option RawRepliesData) := fun a _ =>
  if a = 1 then .ok (some pageCX3) else .error ()

/-- Comment with no held replies; the single reply page contains the same
reply id twice and reports no further page. -/
def commentCX4 : LCComment :=
  { id := "c1", body := "top", createdAt := "2025", votesCount := 0, isPinned := false
    isSticky := false, repliesCount := 2, author := none, replies := []
    hasMoreReplies := true, repliesEndCursor := some "cur" }

def pageCX4 : RawRepliesData :=
  { pageInfo := some ⟨some false, none⟩
    edges := some [⟨some rawReplyNodeR2⟩, ⟨some rawReplyNodeR2⟩] }

def fetchCX4 : Nat → ReplyRequest → Except Unit (Option RawRepliesData) := fun _ _ =>
  .ok (some pageCX4)

def pageW5 : RawRepliesData :=
  { pageInfo := some ⟨some false, none⟩, edges := some [⟨some rawReplyNodeR2⟩] }

def fetchW5 : Nat → ReplyRequest → Except Unit (Option RawRepliesData) := fun _ _ =>
  .ok (some pageW5)

def tcNodeR1 : TCNode :=
  { id := "r1", body := "first", createdAt := "2025", votesCount := 0, isPinned := false
    isSticky := false, author := none, parentId := some "c1" }

def tcNodeC1 : TCNode :=
  { id := "c1", body := "top", createdAt := "2025", votesCount := 0, isPinned := false
    isSticky := false, author := none, parentId := none }

/-- Thread comment with one held reply, flagged for expansion. -/
def tCommentCX6 : TComment :=
  { node := tcNodeC1
    replies := [plainTReply tcNodeR1]
    hasMoreReplies := true
    repliesEndCursor := some "cur" }

def tFetchCX6 : Nat → Except Unit (Option RawTCommentData) := fun _ => .error ()

/-- Thread-reply oracle serving pages with zero reply edges that still
report a next page with a nonempty cursor (attempts 1 and 2), then a
no-next-page empty page. -/
def tFetchCX5 : Nat → Except Unit (Option RawTCommentData) := fun a =>
  if a = 1 then .ok (some ⟨some 5, some ⟨some [], some ⟨some true, some "n1"⟩⟩⟩)
  else if a = 2 then .ok (some ⟨some 5, some ⟨some [], some ⟨some true, some "n2"⟩⟩⟩)
  else .ok (some ⟨some 5, some ⟨some [], some ⟨some false, none⟩⟩⟩)

def rawMakerW : RawMaker :=
  { id := "u9", name := "Maker", username := "maker", headline := none, avatarUrl := ""
    followersCount := some 3, madePosts := none }

def makersDataW : Option RawMakersData := some ⟨some [⟨some rawMakerW⟩]⟩

def launchesDataW : Option CorrLaunchesData :=
  some ⟨some [{ id := "l1", name := "L", comments := some [] }]⟩

def threadsDataW : Option CorrThreadsData := some ⟨some []⟩

/-- Identity batch processing (no per-batch post-processing). -/
def idProcW : Nat → List Review → List Review := fun _ l => l

/-- Identity reply expansion (stands for _expandReplies in runs where it is
not exercised). -/
def exIdW : LCComment → LCComment := fun c => c

/-- The comment parseLCNode builds from rawLCNodeW i. -/
def lcCommentW (i : String) : LCComment :=
  { id := i, body := "hello", createdAt := "2025", votesCount := 1, isPinned := false
    isSticky := false, repliesCount := 0, author := none, replies := []
    hasMoreReplies := false, repliesEndCursor := none }

/-- The maker record _parseMakers builds from rawMakerW against empty
correlation data. -/
def makerOutW : Maker :=
  { id := "u9", name := "Maker", username := "maker", headline := none, avatarUrl := ""
    followersCount := 3, madePostsCount := 0, madePosts := [], launchComments := some []
    forumComments := some [], forumThreadsAuthored := some [] }

/-! # Theorems -/

theorem concatFrom_zero (f : Nat → List α) (k : Nat) : concatFrom f k 0 = [] := rfl

theorem concatFrom_succ (f : Nat → List α) (k n : Nat) :
    concatFrom f k (n + 1) = f k ++ concatFrom f (k + 1) n := rfl

theorem encodeCursor_ten : encodeCursor 10 = "MTA=" := by decide

theorem encodeCursor_twenty : encodeCursor 20 = "MjA=" := by decide

/-! # Lemmas about the reviews pagination loop -/
theorem fetchReviewsLoop_zero (b : Nat → List Review) (p : Nat → List Review → List Review)
    (limit : Option Nat) (k : Nat) (cursor : Option String) (acc : List Review) (total : Nat) :
    fetchReviewsLoop b p limit 0 k cursor acc total = (none, []) := rfl

theorem fetchReviewsLoop_trace_head (b : Nat → List Review)
    (p : Nat → List Review → List Review) (limit : Option Nat) (fuel k : Nat)
    (cursor : Option String) (acc : List Review) (total : Nat) (h : fuel ≠ 0) :
    (fetchReviewsLoop b p limit fuel k cursor acc total).2.headD ⟨none, 0⟩ =
      ⟨cursor, acc.length⟩ := by
  cases fuel with
  | zero => exact absurd rfl h
  | succ n =>
    simp only [fetchReviewsLoop]
    repeat' split
    all_goals rfl

theorem fetchReviewsLoop_cursor_chain (b : Nat → List Review)
    (p : Nat → List Review → List Review) (limit : Option Nat) :
    ∀ (fuel k : Nat) (cursor : Option String) (acc : List Review) (total : Nat),
      total = batchTotal b k →
      ∀ j, j + 1 < (fetchReviewsLoop b p limit fuel k cursor acc total).2.length →
        (b (k + j)).length = 10 ∧
        ((fetchReviewsLoop b p limit fuel k cursor acc total).2.getD (j + 1) ⟨none, 0⟩).cursor =
          some (encodeCursor (batchTotal b (k + j + 1))) := by
  intro fuel
  induction fuel with
  | zero =>
    intro k cursor acc total ht j hj
    simp [fetchReviewsLoop_zero] at hj
  | succ n ih =>
    intro k cursor acc total ht j hj
    simp only [fetchReviewsLoop] at hj ⊢
    by_cases h0 : (b k).length = 0
    · rw [if_pos h0] at hj
      simp at hj
    rw [if_neg h0] at hj ⊢
    set acc1 := acc ++ p k (b k) with hacc1
    set total1 := total + (b k).length with htotal1
    set cursor1 : Option String :=
      if (b k).length = 10 then some (encodeCursor total1) else none with hcursor1
    set hasMore : Bool := !(decide ((b k).length < 10) || cursor1.isNone) with hhm
    have h10of : hasMore = true → (b k).length = 10 := by
      intro hhmt
      by_contra h10
      rw [hhm, hcursor1, if_neg h10] at hhmt
      simp at hhmt
    have ht1 : total1 = batchTotal b (k + 1) := by
      rw [htotal1, ht]; rfl
    have hcur : hasMore = true → cursor1 = some (encodeCursor (batchTotal b (k + 1))) := by
      intro hhmt
      rw [hcursor1, if_pos (h10of hhmt), ht1]
    -- the recursive trace
    have key : ∀ (tr : List ReviewsRequest),
        tr = (fetchReviewsLoop b p limit n (k + 1) cursor1 acc1 total1).2 →
        hasMore = true →
        j + 1 < (⟨cursor, acc.length⟩ :: tr).length →
        (b (k + j)).length = 10 ∧
        ((⟨cursor, acc.length⟩ :: tr).getD (j + 1) ⟨none, 0⟩).cursor =
          some (encodeCursor (batchTotal b (k + j + 1))) := by
      intro tr htr hhmt hlen
      cases j with
      | zero =>
        refine ⟨h10of hhmt, ?_⟩
        have htrne : tr ≠ [] := by
          intro hnil
          rw [hnil] at hlen
          simp at hlen
        have hn0 : n ≠ 0 := by
          intro hn
          rw [hn, fetchReviewsLoop_zero] at htr
          exact htrne htr
        have hhead := fetchReviewsLoop_trace_head b p limit n (k + 1) cursor1 acc1 total1 hn0
        rw [← htr] at hhead
        cases tr with
        | nil => exact absurd rfl htrne
        | cons a t =>
          simp only [List.headD_cons] at hhead
          simp only [List.getD_cons_succ, List.getD_cons_zero, hhead]
          have : k + 0 + 1 = k + 1 := by omega
          rw [this]
          exact hcur hhmt
      | succ j' =>
        have hlen' : j' + 1 < tr.length := by
          simp only [List.length_cons] at hlen
          omega
        have := ih (k + 1) cursor1 acc1 total1 ht1 j'
        rw [← htr] at this
        have hres := this hlen'
        constructor
        · have harith : k + (j' + 1) = k + 1 + j' := by omega
          rw [harith]
          exact hres.1
        · simp only [List.getD_cons_succ]
          have harith : k + (j' + 1) + 1 = k + 1 + j' + 1 := by omega
          rw [harith]
          exact hres.2
    cases limit with
    | some L =>
      dsimp only at hj ⊢
      by_cases hL : L ≤ acc1.length
      · rw [if_pos hL] at hj
        simp at hj
      rw [if_neg hL] at hj ⊢
      by_cases hhmt : hasMore = true
      · rw [if_pos hhmt] at hj ⊢
        exact key _ rfl hhmt hj
      · rw [if_neg hhmt] at hj
        simp at hj
    | none =>
      dsimp only at hj ⊢
      by_cases hhmt : hasMore = true
      · rw [if_pos hhmt] at hj ⊢
        exact key _ rfl hhmt hj
      · rw [if_neg hhmt] at hj
        simp at hj

/-- Core limit lemma for the reviews loop: whatever batches arrive, a
completed run returns the first L items of the concatenation of all
processed batches it consumed, and a further page is requested only while
the accumulated count is still below L. -/
theorem fetchReviewsLoop_take (b : Nat → List Review) (p : Nat → List Review → List Review)
    (L : Nat) (hp : ∀ i, (p i (b i)).length = (b i).length) :
    ∀ (fuel k : Nat) (cursor : Option String) (acc : List Review) (total : Nat),
      acc.length ≤ L →
      (∀ items tot,
        (fetchReviewsLoop b p (some L) fuel k cursor acc total).1 = some (items, tot) →
        items = (acc ++ concatFrom (fun i => p i (b i)) k
          (fetchReviewsLoop b p (some L) fuel k cursor acc total).2.length).take L) ∧
      (∀ j, j + 1 < (fetchReviewsLoop b p (some L) fuel k cursor acc total).2.length →
        (acc ++ concatFrom (fun i => p i (b i)) k (j + 1)).length < L) := by
  intro fuel
  induction fuel with
  | zero =>
    intro k cursor acc total hacc
    constructor
    · intro items tot h
      simp [fetchReviewsLoop_zero] at h
    · intro j hj
      simp [fetchReviewsLoop_zero] at hj
  | succ n ih =>
    intro k cursor acc total hacc
    simp only [fetchReviewsLoop]
    by_cases h0 : (b k).length = 0
    · rw [if_pos h0]
      have hpk : p k (b k) = [] := by
        have := hp k
        rw [h0] at this
        exact List.length_eq_zero.mp this
      constructor
      · intro items tot h
        simp only [List.length_cons, List.length_nil] at *
        injection h with h
        injection h with h1 h2
        rw [← h1]
        rw [concatFrom_succ, concatFrom_zero, hpk]
        simp [List.take_of_length_le hacc]
      · intro j hj
        simp at hj
    rw [if_neg h0]
    set acc1 := acc ++ p k (b k) with hacc1
    set total1 := total + (b k).length with htotal1
    set cursor1 : Option String :=
      if (b k).length = 10 then some (encodeCursor total1) else none with hcursor1
    set hasMore : Bool := !(decide ((b k).length < 10) || cursor1.isNone) with hhm
    by_cases hL : L ≤ acc1.length
    · rw [if_pos hL]
      constructor
      · intro items tot h
        injection h with h
        injection h with h1 h2
        rw [← h1]
        simp only [List.length_cons, List.length_nil]
        rw [concatFrom_succ, concatFrom_zero]
        simp [hacc1]
      · intro j hj
        simp at hj
    rw [if_neg hL]
    have hacc1L : acc1.length ≤ L := Nat.le_of_lt (Nat.lt_of_not_le hL)
    by_cases hhmt : hasMore = true
    · rw [if_pos hhmt]
      have IH := ih (k + 1) cursor1 acc1 total1 hacc1L
      constructor
      · intro items tot h
        simp only at h
        have hfst := IH.1 items tot h
        simp only [List.length_cons]
        rw [concatFrom_succ]
        rw [← List.append_assoc]
        exact hfst
      · intro j hj
        simp only [List.length_cons] at hj
        cases j with
        | zero =>
          rw [concatFrom_succ, concatFrom_zero]
          simp only [List.append_nil, ← List.append_assoc]
          rw [← hacc1]
          exact Nat.lt_of_not_le hL
        | succ j' =>
          have hj' : j' + 1 < (fetchReviewsLoop b p (some L) n (k + 1) cursor1 acc1 total1).2.length := by
            omega
          have := IH.2 j' hj'
          rw [concatFrom_succ, ← List.append_assoc, ← hacc1]
          exact this
    · rw [if_neg hhmt]
      constructor
      · intro items tot h
        injection h with h
        injection h with h1 h2
        rw [← h1]
        simp only [List.length_cons, List.length_nil]
        rw [concatFrom_succ, concatFrom_zero]
        simp only [List.append_nil]
        rw [← hacc1, List.take_of_length_le hacc1L]
      · intro j hj
        simp at hj

/-- Core limit lemma for the threads loop, same shape as the reviews
one. -/
theorem fetchThreadsLoop_take (b : Nat → ThreadsBatch) (L : Nat) :
    ∀ (fuel k : Nat) (cursor : Option String) (acc : List PHThread),
      acc.length ≤ L →
      (∀ items,
        (fetchThreadsLoop b (some L) fuel k cursor acc).1 = some items →
        items = (acc ++ concatFrom (fun i => (b i).threads) k
          (fetchThreadsLoop b (some L) fuel k cursor acc).2.length).take L) ∧
      (∀ j, j + 1 < (fetchThreadsLoop b (some L) fuel k cursor acc).2.length →
        (acc ++ concatFrom (fun i => (b i).threads) k (j + 1)).length < L) := by
  intro fuel
  induction fuel with
  | zero =>
    intro k cursor acc hacc
    constructor
    · intro items h
      simp [fetchThreadsLoop] at h
    · intro j hj
      simp [fetchThreadsLoop] at hj
  | succ n ih =>
    intro k cursor acc hacc
    simp only [fetchThreadsLoop]
    by_cases h0 : (b k).threads.length = 0
    · rw [if_pos h0]
      have hbk : (b k).threads = [] := List.length_eq_zero.mp h0
      constructor
      · intro items h
        injection h with h1
        rw [← h1]
        simp only [List.length_cons, List.length_nil]
        rw [concatFrom_succ, concatFrom_zero, hbk]
        simp [List.take_of_length_le hacc]
      · intro j hj
        simp at hj
    rw [if_neg h0]
    set acc1 := acc ++ (b k).threads with hacc1
    by_cases hL : L ≤ acc1.length
    · rw [if_pos hL]
      constructor
      · intro items h
        injection h with h1
        rw [← h1]
        simp only [List.length_cons, List.length_nil]
        rw [concatFrom_succ, concatFrom_zero]
        simp [hacc1]
      · intro j hj
        simp at hj
    rw [if_neg hL]
    have hacc1L : acc1.length ≤ L := Nat.le_of_lt (Nat.lt_of_not_le hL)
    by_cases hhmt : (b k).pageInfo.hasNextPage = true
    · rw [if_pos hhmt]
      have IH := ih (k + 1) (b k).pageInfo.endCursor acc1 hacc1L
      constructor
      · intro items h
        simp only at h
        have hfst := IH.1 items h
        simp only [List.length_cons]
        rw [concatFrom_succ, ← List.append_assoc]
        exact hfst
      · intro j hj
        simp only [List.length_cons] at hj
        cases j with
        | zero =>
          rw [concatFrom_succ, concatFrom_zero]
          simp only [List.append_nil, ← List.append_assoc]
          rw [← hacc1]
          exact Nat.lt_of_not_le hL
        | succ j' =>
          have hj' : j' + 1 <
              (fetchThreadsLoop b (some L) n (k + 1) (b k).pageInfo.endCursor acc1).2.length := by
            omega
          have := IH.2 j' hj'
          rw [concatFrom_succ, ← List.append_assoc, ← hacc1]
          exact this
    · rw [if_neg hhmt]
      constructor
      · intro items h
        injection h with h1
        rw [← h1]
        simp only [List.length_cons, List.length_nil]
        rw [concatFrom_succ, concatFrom_zero]
        simp only [List.append_nil]
        rw [← hacc1, List.take_of_length_le hacc1L]
      · intro j hj
        simp at hj

/-- Core limit lemma for the launches loop, same shape as the threads
one. -/
theorem fetchLaunchesLoop_take (b : Nat → LaunchesBatch) (L : Nat) :
    ∀ (fuel k : Nat) (cursor : Option String) (acc : List Launch),
      acc.length ≤ L →
      (∀ items,
        (fetchLaunchesLoop b (some L) fuel k cursor acc).1 = some items →
        items = (acc ++ concatFrom (fun i => (b i).launches) k
          (fetchLaunchesLoop b (some L) fuel k cursor acc).2.length).take L) ∧
      (∀ j, j + 1 < (fetchLaunchesLoop b (some L) fuel k cursor acc).2.length →
        (acc ++ concatFrom (fun i => (b i).launches) k (j + 1)).length < L) := by
  intro fuel
  induction fuel with
  | zero =>
    intro k cursor acc hacc
    constructor
    · intro items h
      simp [fetchLaunchesLoop] at h
    · intro j hj
      simp [fetchLaunchesLoop] at hj
  | succ n ih =>
    intro k cursor acc hacc
    simp only [fetchLaunchesLoop]
    by_cases h0 : (b k).launches.length = 0
    · rw [if_pos h0]
      have hbk : (b k).launches = [] := List.length_eq_zero.mp h0
      constructor
      · intro items h
        injection h with h1
        rw [← h1]
        simp only [List.length_cons, List.length_nil]
        rw [concatFrom_succ, concatFrom_zero, hbk]
        simp [List.take_of_length_le hacc]
      · intro j hj
        simp at hj
    rw [if_neg h0]
    set acc1 := acc ++ (b k).launches with hacc1
    by_cases hL : L ≤ acc1.length
    · rw [if_pos hL]
      constructor
      · intro items h
        injection h with h1
        rw [← h1]
        simp only [List.length_cons, List.length_nil]
        rw [concatFrom_succ, concatFrom_zero]
        simp [hacc1]
      · intro j hj
        simp at hj
    rw [if_neg hL]
    have hacc1L : acc1.length ≤ L := Nat.le_of_lt (Nat.lt_of_not_le hL)
    by_cases hhmt : jsOrBool ((b k).pageInfo.bind (·.hasNextPage)) = true
    · rw [if_pos hhmt]
      have IH := ih (k + 1) ((b k).pageInfo.bind (·.endCursor)) acc1 hacc1L
      constructor
      · intro items h
        simp only at h
        have hfst := IH.1 items h
        simp only [List.length_cons]
        rw [concatFrom_succ, ← List.append_assoc]
        exact hfst
      · intro j hj
        simp only [List.length_cons] at hj
        cases j with
        | zero =>
          rw [concatFrom_succ, concatFrom_zero]
          simp only [List.append_nil, ← List.append_assoc]
          rw [← hacc1]
          exact Nat.lt_of_not_le hL
        | succ j' =>
          have hj' : j' + 1 <
              (fetchLaunchesLoop b (some L) n (k + 1) ((b k).pageInfo.bind (·.endCursor)) acc1).2.length := by
            omega
          have := IH.2 j' hj'
          rw [concatFrom_succ, ← List.append_assoc, ← hacc1]
          exact this
    · rw [if_neg hhmt]
      constructor
      · intro items h
        injection h with h1
        rw [← h1]
        simp only [List.length_cons, List.length_nil]
        rw [concatFrom_succ, concatFrom_zero]
        simp only [List.append_nil]
        rw [← hacc1, List.take_of_length_le hacc1L]
      · intro j hj
        simp at hj

/-! # Lemmas about the launch-comments loop -/
theorem concatFrom_congr (f g : Nat → List α) :
    ∀ (n k : Nat), (∀ i, k ≤ i → f i = g i) → concatFrom f k n = concatFrom g k n := by
  intro n
  induction n with
  | zero => intro k h; rfl
  | succ m ih =>
    intro k h
    rw [concatFrom_succ, concatFrom_succ, h k (Nat.le_refl k), ih (k + 1)]
    intro i hi
    exact h i (Nat.le_of_succ_le hi)

/-- One lcProcessBatch step, decomposed extensionally: the accumulated
list always grows by the expanded batch, the counter by its length. -/
theorem lcProcessBatch_eq (limit : Option Nat) (fa : Bool) (ex : LCComment → LCComment)
    (comments : List LCComment) (hn : Bool) (ncur : Option String)
    (acc : List LCComment) (total texp : Nat) :
    lcProcessBatch limit fa ex comments hn ncur acc total texp =
      (let newComments := comments.map (expandIfNeeded fa ex)
       let acc1 := acc ++ newComments
       let total1 := total + newComments.length
       match limit with
       | some L =>
         if L ≤ total1 then
           LCStep.done ⟨total1, texp, if L < acc1.length then acc1.take L else acc1⟩
         else if hn then .next (jsOrStr ncur "") acc1 total1
         else .done ⟨total1, texp, acc1⟩
       | none =>
         if hn then .next (jsOrStr ncur "") acc1 total1
         else .done ⟨total1, texp, acc1⟩) := by
  by_cases h0 : comments.length = 0
  · have hc : comments = [] := List.length_eq_zero.mp h0
    subst hc
    simp [lcProcessBatch]
  · simp [lcProcessBatch, h0]

/-- Core limit lemma for the subsequent-batch part of the
fetchLaunchComments loop (firstBatch = false): a completed run returns
the first L items of everything accumulated, the running counter counts
the untrimmed accumulation, and a further page is requested only while
the counter is below L. -/
theorem lcLoop_false_take (firstResp : Except Unit (Option RawPost))
    (nextResp : Nat → Except Unit RawNextData) (L : Nat) (fa : Bool)
    (ex : LCComment → LCComment) :
    ∀ (fuel bn : Nat) (postId : Option String) (cursor : String)
      (acc : List LCComment) (total texp : Nat),
      acc.length = total → total ≤ L →
      (∀ res, (lcLoop firstResp nextResp (some L) fa ex fuel bn false postId cursor acc total texp).1 = some res →
        res.parsedComments = (acc ++ concatFrom
          (fun i => (parseNextBatch (nextResp i)).comments.map (expandIfNeeded fa ex)) bn
          (lcLoop firstResp nextResp (some L) fa ex fuel bn false postId cursor acc total texp).2.length).take L ∧
        res.commentCount = (acc ++ concatFrom
          (fun i => (parseNextBatch (nextResp i)).comments.map (expandIfNeeded fa ex)) bn
          (lcLoop firstResp nextResp (some L) fa ex fuel bn false postId cursor acc total texp).2.length).length ∧
        res.totalExpectedComments = texp) ∧
      (∀ j, j + 1 < (lcLoop firstResp nextResp (some L) fa ex fuel bn false postId cursor acc total texp).2.length →
        (acc ++ concatFrom
          (fun i => (parseNextBatch (nextResp i)).comments.map (expandIfNeeded fa ex)) bn
          (j + 1)).length < L) := by
  intro fuel
  induction fuel with
  | zero =>
    intro bn postId cursor acc total texp hacc htot
    constructor
    · intro res h
      simp [lcLoop] at h
    · intro j hj
      simp [lcLoop] at hj
  | succ n ih =>
    intro bn postId cursor acc total texp hacc htot
    simp only [lcLoop, if_neg (Bool.false_ne_true), lcProcessBatch_eq]
    set c := (parseNextBatch (nextResp bn)).comments with hc
    set newComments := c.map (expandIfNeeded fa ex) with hnew
    set acc1 := acc ++ newComments with hacc1
    set total1 := total + newComments.length with htotal1
    have hacc1len : acc1.length = total1 := by
      rw [hacc1, htotal1, List.length_append, hacc]
    by_cases hL : L ≤ total1
    · rw [if_pos hL]
      constructor
      · intro res h
        injection h with h1
        rw [← h1]
        simp only [List.length_cons, List.length_nil]
        rw [concatFrom_succ, concatFrom_zero, List.append_nil, ← hc, ← hnew, ← hacc1]
        refine ⟨?_, ?_, trivial⟩
        · by_cases hlt : L < acc1.length
          · rw [if_pos hlt]
          · rw [if_neg hlt]
            rw [List.take_of_length_le (Nat.le_of_not_lt hlt)]
        · exact hacc1len.symm
      · intro j hj
        simp at hj
    rw [if_neg hL]
    have htot1 : total1 ≤ L := Nat.le_of_lt (Nat.lt_of_not_le hL)
    by_cases hhn : (parseNextBatch (nextResp bn)).hasNextPage = true
    · rw [if_pos hhn]
      have IH := ih (bn + 1) postId (jsOrStr (parseNextBatch (nextResp bn)).nextCursor "")
        acc1 total1 texp hacc1len htot1
      constructor
      · intro res h
        simp only at h
        have hfst := IH.1 res h
        simp only [List.length_cons]
        rw [concatFrom_succ, ← List.append_assoc, ← hc, ← hnew, ← hacc1]
        exact hfst
      · intro j hj
        simp only [List.length_cons] at hj
        cases j with
        | zero =>
          rw [concatFrom_succ, concatFrom_zero, List.append_nil, ← hc, ← hnew, ← hacc1, hacc1len]
          exact Nat.lt_of_not_le hL
        | succ j' =>
          have hj' : j' + 1 < (lcLoop firstResp nextResp (some L) fa ex n (bn + 1) false postId
              (jsOrStr (parseNextBatch (nextResp bn)).nextCursor "") acc1 total1 texp).2.length := by
            omega
          have := IH.2 j' hj'
          rw [concatFrom_succ, ← List.append_assoc, ← hc, ← hnew, ← hacc1]
          exact this
    · rw [if_neg hhn]
      constructor
      · intro res h
        injection h with h1
        rw [← h1]
        simp only [List.length_cons, List.length_nil]
        rw [concatFrom_succ, concatFrom_zero, List.append_nil, ← hc, ← hnew, ← hacc1]
        refine ⟨?_, ?_, trivial⟩
        · rw [List.take_of_length_le (by omega : acc1.length ≤ L)]
        · exact hacc1len.symm
      · intro j hj
        simp at hj

/-- Run-level limit lemma for fetchLaunchComments. -/
theorem fetchLaunchComments_take (firstResp : Except Unit (Option RawPost))
    (nextResp : Nat → Except Unit RawNextData) (L : Nat) (fa : Bool)
    (ex : LCComment → LCComment) (fuel : Nat) :
    (∀ res, (fetchLaunchComments firstResp nextResp (some L) fa ex fuel).1 = some res →
      res.parsedComments = (concatFrom (lcBatchItems firstResp nextResp fa ex) 1
        (fetchLaunchComments firstResp nextResp (some L) fa ex fuel).2.length).take L ∧
      res.commentCount = (concatFrom (lcBatchItems firstResp nextResp fa ex) 1
        (fetchLaunchComments firstResp nextResp (some L) fa ex fuel).2.length).length) ∧
    (∀ j, j + 1 < (fetchLaunchComments firstResp nextResp (some L) fa ex fuel).2.length →
      (concatFrom (lcBatchItems firstResp nextResp fa ex) 1 (j + 1)).length < L) := by
  have hcongr : ∀ n, concatFrom (lcBatchItems firstResp nextResp fa ex) 2 n =
      concatFrom (fun i => (parseNextBatch (nextResp i)).comments.map (expandIfNeeded fa ex)) 2 n := by
    intro n
    apply concatFrom_congr
    intro i hi
    have : i ≠ 1 := by omega
    simp [lcBatchItems, this]
  cases fuel with
  | zero =>
    constructor
    · intro res h
      simp [fetchLaunchComments, lcLoop] at h
    · intro j hj
      simp [fetchLaunchComments, lcLoop] at hj
  | succ n =>
    simp only [fetchLaunchComments, lcLoop, eq_self_iff_true, if_true]
    cases hpid : (parseFirstBatch firstResp).postId with
    | none =>
      simp only [hpid]
      constructor
      · intro res h
        injection h with h1
        rw [← h1]
        simp only [List.length_cons, List.length_nil]
        rw [concatFrom_succ, concatFrom_zero, List.append_nil]
        simp [lcBatchItems, hpid]
      · intro j hj
        simp at hj
    | some pid =>
      simp only [hpid, lcProcessBatch_eq]
      have hitems1 : lcBatchItems firstResp nextResp fa ex 1 =
          (parseFirstBatch firstResp).comments.map (expandIfNeeded fa ex) := by
        simp [lcBatchItems, hpid]
      set c := (parseFirstBatch firstResp).comments with hc
      set newComments := c.map (expandIfNeeded fa ex) with hnew
      set acc1 := List.nil (α := LCComment) ++ newComments with hacc1
      set total1 := 0 + newComments.length with htotal1
      have hacc1len : acc1.length = total1 := by
        rw [hacc1, htotal1, List.length_append]
        rfl
      by_cases hL : L ≤ total1
      · rw [if_pos hL]
        constructor
        · intro res h
          injection h with h1
          rw [← h1]
          simp only [List.length_cons, List.length_nil]
          rw [concatFrom_succ, concatFrom_zero, List.append_nil, hitems1]
          refine ⟨?_, ?_⟩
          · by_cases hlt : L < acc1.length
            · rw [if_pos hlt]
              rw [hacc1, List.nil_append]
            · rw [if_neg hlt]
              have := hacc1
              rw [List.nil_append] at this
              rw [this, List.take_of_length_le (by rw [← this]; exact Nat.le_of_not_lt hlt)]
          · have := hacc1
            rw [List.nil_append] at this
            rw [← this, hacc1len]
        · intro j hj
          simp at hj
      · rw [if_neg hL]
        have htot1 : total1 ≤ L := Nat.le_of_lt (Nat.lt_of_not_le hL)
        by_cases hhn : (parseFirstBatch firstResp).hasNextPage = true
        · rw [if_pos hhn]
          have IH := lcLoop_false_take firstResp nextResp L fa ex n (1 + 1) (some pid)
            (jsOrStr (parseFirstBatch firstResp).nextCursor "") acc1 total1
            (parseFirstBatch firstResp).totalCount hacc1len htot1
          constructor
          · intro res h
            simp only at h
            have hfst := IH.1 res h
            simp only [List.length_cons]
            rw [concatFrom_succ, hitems1, hcongr]
            have := hfst.1
            rw [hacc1, List.nil_append] at this ⊢
            refine ⟨this, ?_⟩
            have h2 := hfst.2.1
            rw [hacc1, List.nil_append] at h2
            exact h2
          · intro j hj
            simp only [List.length_cons] at hj
            cases j with
            | zero =>
              rw [concatFrom_succ, concatFrom_zero, List.append_nil, hitems1]
              have : newComments.length = acc1.length := by rw [hacc1, List.nil_append]
              rw [this, hacc1len]
              exact Nat.lt_of_not_le hL
            | succ j' =>
              have hj' : j' + 1 < (lcLoop firstResp nextResp (some L) fa ex n (1 + 1) false (some pid)
                  (jsOrStr (parseFirstBatch firstResp).nextCursor "") acc1 total1
                  (parseFirstBatch firstResp).totalCount).2.length := by
                omega
              have := IH.2 j' hj'
              rw [concatFrom_succ, hitems1, hcongr]
              rw [hacc1, List.nil_append] at this
              exact this
        · rw [if_neg hhn]
          constructor
          · intro res h
            injection h with h1
            rw [← h1]
            simp only [List.length_cons, List.length_nil]
            rw [concatFrom_succ, concatFrom_zero, List.append_nil, hitems1]
            have heq : acc1 = newComments := by rw [hacc1, List.nil_append]
            refine ⟨?_, ?_⟩
            · rw [← heq, List.take_of_length_le (by omega : acc1.length ≤ L)]
            · rw [← heq, hacc1len]
          · intro j hj
            simp at hj

/-- Error behaviour of a later batch of fetchLaunchComments: the catch of
_fetchNextCommentsBatch yields the empty no-next-page result, so the loop
adds nothing, stops, and returns the comments accumulated so far. -/
theorem lcLoop_error_step (firstResp : Except Unit (Option RawPost))
    (nextResp : Nat → Except Unit RawNextData) (limit : Option Nat) (fa : Bool)
    (ex : LCComment → LCComment) (fuel bn : Nat) (postId : Option String) (cursor : String)
    (acc : List LCComment) (total texp : Nat) (e : Unit)
    (herr : nextResp bn = .error e)
    (htot : ∀ L, limit = some L → total < L) :
    lcLoop firstResp nextResp limit fa ex (fuel + 1) bn false postId cursor acc total texp =
      (some ⟨total, texp, acc⟩, [⟨bn, cursor, postId⟩]) := by
  have hparse : parseNextBatch (nextResp bn) = ⟨[], false, none⟩ := by
    rw [herr]
    rfl
  simp only [lcLoop, if_neg (Bool.false_ne_true), hparse, lcProcessBatch_eq]
  cases limit with
  | some L =>
    have hlt := htot L rfl
    simp only [List.map_nil, List.append_nil, List.length_nil, Nat.add_zero]
    rw [if_neg (by omega : ¬ L ≤ total)]
  | none =>
    simp only [List.map_nil, List.append_nil, List.length_nil, Nat.add_zero]

/-- First-stage failure of fetchLaunchComments: no post id aborts the
whole fetch with the empty-comments result after the single first
request. -/
theorem lcLoop_first_none (firstResp : Except Unit (Option RawPost))
    (nextResp : Nat → Except Unit RawNextData) (limit : Option Nat) (fa : Bool)
    (ex : LCComment → LCComment) (fuel : Nat)
    (hpid : (parseFirstBatch firstResp).postId = none) :
    fetchLaunchComments firstResp nextResp limit fa ex (fuel + 1) =
      (some ⟨0, 0, []⟩, [⟨1, "", none⟩]) := by
  simp only [fetchLaunchComments, lcLoop, eq_self_iff_true, if_true, hpid]

/-! # Lemmas about the launch-comment reply expander -/
theorem contains_true_iff_mem (l : List String) (x : String) :
    l.contains x = true ↔ x ∈ l := by
  constructor
  · intro h
    exact List.mem_of_elem_eq_true h
  · intro h
    exact List.elem_eq_true_of_mem h

theorem expandRepliesLoop_hasMore_false
    (fetch : Nat → ReplyRequest → Except Unit (Option RawRepliesData))
    (cid : String) (init : List String) (fuel attempts : Nat) (cursor : String)
    (acc : List LCReply) :
    expandRepliesLoop fetch cid init fuel attempts cursor acc false = (.ok acc, []) := by
  cases fuel with
  | zero => rfl
  | succ n => rfl

/-- Attempt bound of _expandReplies: the loop issues at most fuel
requests. -/
theorem expandRepliesLoop_trace_le
    (fetch : Nat → ReplyRequest → Except Unit (Option RawRepliesData))
    (cid : String) (init : List String) :
    ∀ (fuel attempts : Nat) (cursor : String) (acc : List LCReply) (hasMore : Bool),
      (expandRepliesLoop fetch cid init fuel attempts cursor acc hasMore).2.length ≤ fuel := by
  intro fuel
  induction fuel with
  | zero =>
    intro attempts cursor acc hasMore
    simp [expandRepliesLoop]
  | succ n ih =>
    intro attempts cursor acc hasMore
    simp only [expandRepliesLoop]
    by_cases hm : hasMore = true
    · rw [if_neg (by simp [hm])]
      cases hf : fetch (attempts + 1)
          ⟨cursor, if attempts + 1 = 1 then init else []⟩ with
      | error e => simp
      | ok v =>
        cases v with
        | none => simp
        | some d =>
          cases he : d.edges with
          | none => simp [he]
          | some edges =>
            simp only [he]
            by_cases h0 : edges.length = 0
            · rw [if_pos h0]
              simp
            · rw [if_neg h0]
              simp only [List.length_cons]
              have := ih (attempts + 1)
                (jsOrStr (d.pageInfo.bind (·.endCursor)) "")
                ((acc ++ (edges.filterMap fun e => parseReplyNode e.node cid).filter
                  fun r => !(acc.map (·.id)).contains r.id))
                (jsOrBool (d.pageInfo.bind (·.hasNextPage)))
              omega
    · have hfalse : hasMore = false := by
        cases hasMore
        · rfl
        · exact absurd rfl hm
      rw [hfalse]
      simp

/-- An error-free oracle gives a normal (ok) loop result: exhausting the
attempt bound is a soft stop, not a failure. -/
theorem expandRepliesLoop_ok
    (fetch : Nat → ReplyRequest → Except Unit (Option RawRepliesData))
    (cid : String) (init : List String)
    (hok : ∀ a r, ∃ v, fetch a r = .ok v) :
    ∀ (fuel attempts : Nat) (cursor : String) (acc : List LCReply) (hasMore : Bool),
      ∃ l, (expandRepliesLoop fetch cid init fuel attempts cursor acc hasMore).1 = .ok l := by
  intro fuel
  induction fuel with
  | zero =>
    intro attempts cursor acc hasMore
    exact ⟨acc, rfl⟩
  | succ n ih =>
    intro attempts cursor acc hasMore
    simp only [expandRepliesLoop]
    by_cases hm : hasMore = true
    · rw [if_neg (by simp [hm])]
      obtain ⟨v, hv⟩ := hok (attempts + 1) ⟨cursor, if attempts + 1 = 1 then init else []⟩
      rw [hv]
      cases v with
      | none => exact ⟨acc, rfl⟩
      | some d =>
        cases he : d.edges with
        | none =>
          refine ⟨acc, ?_⟩
          simp [he]
        | some edges =>
          simp only [he]
          by_cases h0 : edges.length = 0
          · rw [if_pos h0]
            exact ⟨acc, rfl⟩
          · rw [if_neg h0]
            simp only
            exact ih (attempts + 1) _ _ _
    · have hfalse : hasMore = false := by
        cases hasMore
        · rfl
        · exact absurd rfl hm
      rw [hfalse]
      exact ⟨acc, by simp⟩

/-- Stop conditions of _expandReplies: a further request is issued only
after a page that was fetched without error, had a nonempty edge list and
reported a next page. -/
theorem expandRepliesLoop_continue
    (fetch : Nat → ReplyRequest → Except Unit (Option RawRepliesData))
    (cid : String) (init : List String) :
    ∀ (fuel attempts : Nat) (cursor : String) (acc : List LCReply) (hasMore : Bool) (j : Nat),
      j + 1 < (expandRepliesLoop fetch cid init fuel attempts cursor acc hasMore).2.length →
      ∃ d edges,
        fetch (attempts + j + 1)
          ((expandRepliesLoop fetch cid init fuel attempts cursor acc hasMore).2.getD j
            ⟨"", []⟩) = .ok (some d) ∧
        d.edges = some edges ∧ edges.length ≠ 0 ∧
        jsOrBool (d.pageInfo.bind (·.hasNextPage)) = true := by
  intro fuel
  induction fuel with
  | zero =>
    intro attempts cursor acc hasMore j hj
    simp [expandRepliesLoop] at hj
  | succ n ih =>
    intro attempts cursor acc hasMore j hj
    by_cases hm : hasMore = true
    · simp only [expandRepliesLoop, if_neg (by simp [hm] : ¬ (!hasMore) = true)] at hj ⊢
      cases hf : fetch (attempts + 1)
          ⟨cursor, if attempts + 1 = 1 then init else []⟩ with
      | error e =>
        rw [hf] at hj
        simp at hj
      | ok v =>
        rw [hf] at hj
        cases v with
        | none => simp at hj
        | some d =>
          dsimp only at hj ⊢
          cases he : d.edges with
          | none =>
            rw [he] at hj
            simp at hj
          | some edges =>
            rw [he] at hj
            dsimp only at hj ⊢
            by_cases h0 : edges.length = 0
            · rw [if_pos h0] at hj
              simp at hj
            · rw [if_neg h0] at hj ⊢
              simp only [List.length_cons] at hj
              cases j with
              | zero =>
                refine ⟨d, edges, ?_, he, h0, ?_⟩
                · simp only [List.getD_cons_zero]
                  have h1 : attempts + 0 + 1 = attempts + 1 := by omega
                  rw [h1, hf]
                · by_contra hnext
                  have hfalse : jsOrBool (d.pageInfo.bind (·.hasNextPage)) = false := by
                    cases hb : jsOrBool (d.pageInfo.bind (·.hasNextPage))
                    · rfl
                    · exact absurd hb hnext
                  rw [hfalse, expandRepliesLoop_hasMore_false] at hj
                  simp at hj
              | succ j' =>
                have hj' : j' + 1 < (expandRepliesLoop fetch cid init n (attempts + 1)
                    (jsOrStr (d.pageInfo.bind (·.endCursor)) "")
                    (acc ++ ((edges.filterMap fun e => parseReplyNode e.node cid).filter
                      fun r => !(acc.map (·.id)).contains r.id))
                    (jsOrBool (d.pageInfo.bind (·.hasNextPage)))).2.length := by
                  omega
                have := ih (attempts + 1)
                  (jsOrStr (d.pageInfo.bind (·.endCursor)) "")
                  (acc ++ ((edges.filterMap fun e => parseReplyNode e.node cid).filter
                    fun r => !(acc.map (·.id)).contains r.id))
                  (jsOrBool (d.pageInfo.bind (·.hasNextPage))) j' hj'
                simp only [List.getD_cons_succ]
                have h1 : attempts + (j' + 1) + 1 = attempts + 1 + j' + 1 := by omega
                rw [h1]
                exact this
    · have hfalse : hasMore = false := by
        cases hasMore
        · rfl
        · exact absurd rfl hm
      rw [hfalse, expandRepliesLoop_hasMore_false] at hj
      simp at hj

theorem expandRepliesLoop_excluded
    (fetch : Nat → ReplyRequest → Except Unit (Option RawRepliesData))
    (cid : String) (init : List String) :
    ∀ (fuel attempts : Nat) (cursor : String) (acc : List LCReply) (hasMore : Bool) (j : Nat),
      j < (expandRepliesLoop fetch cid init fuel attempts cursor acc hasMore).2.length →
      ((expandRepliesLoop fetch cid init fuel attempts cursor acc hasMore).2.getD j
        ⟨"", []⟩).excludedCommentIds = if attempts + j + 1 = 1 then init else [] := by
  intro fuel
  induction fuel with
  | zero =>
    intro attempts cursor acc hasMore j hj
    simp [expandRepliesLoop] at hj
  | succ n ih =>
    intro attempts cursor acc hasMore j hj
    by_cases hm : hasMore = true
    · simp only [expandRepliesLoop, if_neg (by simp [hm] : ¬ (!hasMore) = true)] at hj ⊢
      cases hf : fetch (attempts + 1)
          ⟨cursor, if attempts + 1 = 1 then init else []⟩ with
      | error e =>
        rw [hf] at hj
        cases j with
        | zero => simp
        | succ j' => simp at hj
      | ok v =>
        rw [hf] at hj
        cases v with
        | none =>
          cases j with
          | zero => simp
          | succ j' => simp at hj
        | some d =>
          dsimp only at hj ⊢
          cases he : d.edges with
          | none =>
            rw [he] at hj
            cases j with
            | zero => simp
            | succ j' => simp at hj
          | some edges =>
            rw [he] at hj
            dsimp only at hj ⊢
            by_cases h0 : edges.length = 0
            · rw [if_pos h0] at hj ⊢
              cases j with
              | zero => simp
              | succ j' => simp at hj
            · rw [if_neg h0] at hj ⊢
              cases j with
              | zero => simp
              | succ j' =>
                simp only [List.length_cons] at hj
                have hj' : j' < (expandRepliesLoop fetch cid init n (attempts + 1)
                    (jsOrStr (d.pageInfo.bind (·.endCursor)) "")
                    (acc ++ ((edges.filterMap fun e => parseReplyNode e.node cid).filter
                      fun r => !(acc.map (·.id)).contains r.id))
                    (jsOrBool (d.pageInfo.bind (·.hasNextPage)))).2.length := by
                  omega
                have := ih (attempts + 1)
                  (jsOrStr (d.pageInfo.bind (·.endCursor)) "")
                  (acc ++ ((edges.filterMap fun e => parseReplyNode e.node cid).filter
                    fun r => !(acc.map (·.id)).contains r.id))
                  (jsOrBool (d.pageInfo.bind (·.hasNextPage))) j' hj'
                simp only [List.getD_cons_succ]
                have h1 : attempts + (j' + 1) + 1 = attempts + 1 + j' + 1 := by omega
                rw [h1]
                exact this
    · have hfalse : hasMore = false := by
        cases hasMore
        · rfl
        · exact absurd rfl hm
      rw [hfalse, expandRepliesLoop_hasMore_false] at hj
      simp at hj

/-- Deduplication invariant of _expandReplies: starting from replies with
distinct ids, and with every fetched page internally free of duplicate
ids, the accumulated reply list keeps distinct ids. -/
theorem expandRepliesLoop_nodup
    (fetch : Nat → ReplyRequest → Except Unit (Option RawRepliesData))
    (cid : String) (init : List String)
    (hpage : ∀ a r d, fetch a r = .ok (some d) →
      ((pageNewReplies cid d).map (·.id)).Nodup) :
    ∀ (fuel attempts : Nat) (cursor : String) (acc : List LCReply) (hasMore : Bool),
      (acc.map (·.id)).Nodup →
      ∀ l, (expandRepliesLoop fetch cid init fuel attempts cursor acc hasMore).1 = .ok l →
        (l.map (·.id)).Nodup := by
  intro fuel
  induction fuel with
  | zero =>
    intro attempts cursor acc hasMore hacc l hl
    injection hl with hl
    rw [← hl]
    exact hacc
  | succ n ih =>
    intro attempts cursor acc hasMore hacc l hl
    by_cases hm : hasMore = true
    · simp only [expandRepliesLoop, if_neg (by simp [hm] : ¬ (!hasMore) = true)] at hl
      cases hf : fetch (attempts + 1)
          ⟨cursor, if attempts + 1 = 1 then init else []⟩ with
      | error e =>
        rw [hf] at hl
        simp at hl
      | ok v =>
        rw [hf] at hl
        cases v with
        | none =>
          injection hl with hl
          rw [← hl]
          exact hacc
        | some d =>
          dsimp only at hl
          cases he : d.edges with
          | none =>
            rw [he] at hl
            injection hl with hl
            rw [← hl]
            exact hacc
          | some edges =>
            rw [he] at hl
            dsimp only at hl
            by_cases h0 : edges.length = 0
            · rw [if_pos h0] at hl
              injection hl with hl
              rw [← hl]
              exact hacc
            · rw [if_neg h0] at hl
              have hnodup1 : (((edges.filterMap fun e => parseReplyNode e.node cid).filter
                  fun r => !(acc.map (·.id)).contains r.id).map (·.id)).Nodup := by
                have hpageids := hpage (attempts + 1)
                  ⟨cursor, if attempts + 1 = 1 then init else []⟩ d hf
                rw [pageNewReplies, he] at hpageids
                have hsub : ((edges.filterMap fun e => parseReplyNode e.node cid).filter
                    fun r => !(acc.map (·.id)).contains r.id).Sublist
                    (edges.filterMap fun e => parseReplyNode e.node cid) :=
                  List.filter_sublist _
                exact (hsub.map (·.id)).nodup hpageids
              have hdisj : List.Disjoint (acc.map (·.id))
                  (((edges.filterMap fun e => parseReplyNode e.node cid).filter
                    fun r => !(acc.map (·.id)).contains r.id).map (·.id)) := by
                intro x hx hx2
                obtain ⟨r, hr, hrid⟩ := List.mem_map.mp hx2
                have := List.mem_filter.mp hr
                have hcontains := this.2
                rw [Bool.not_eq_true', ← Bool.not_eq_true] at hcontains
                apply hcontains
                rw [contains_true_iff_mem, hrid]
                exact hx
              have hacc1 : (((acc ++ ((edges.filterMap fun e => parseReplyNode e.node cid).filter
                  fun r => !(acc.map (·.id)).contains r.id)).map (·.id))).Nodup := by
                rw [List.map_append]
                exact List.Nodup.append hacc hnodup1 hdisj
              exact ih (attempts + 1) (jsOrStr (d.pageInfo.bind (·.endCursor)) "")
                _ (jsOrBool (d.pageInfo.bind (·.hasNextPage))) hacc1 l hl
    · have hfalse : hasMore = false := by
        cases hasMore
        · rfl
        · exact absurd rfl hm
      rw [hfalse, expandRepliesLoop_hasMore_false] at hl
      injection hl with hl
      rw [← hl]
      exact hacc

/-- On a normal completion (error-free oracle) _expandReplies clears
hasMoreReplies, and keeps the reply ids free of duplicates whenever the
initial replies and every fetched page are. -/
theorem expandReplies_complete
    (fetch : Nat → ReplyRequest → Except Unit (Option RawRepliesData))
    (comment : LCComment)
    (hok : ∀ a r, ∃ v, fetch a r = .ok v) :
    (expandReplies fetch comment).hasMoreReplies = false ∧
    ((comment.replies.map (·.id)).Nodup →
      (∀ a r d, fetch a r = .ok (some d) →
        ((pageNewReplies comment.id d).map (·.id)).Nodup) →
      (((expandReplies fetch comment).replies.map (·.id)).Nodup)) := by
  rw [expandReplies, expandRepliesWithTrace]
  by_cases hguard : (!comment.hasMoreReplies &&
      decide (comment.repliesCount ≤ comment.replies.length)) = true
  · rw [if_pos hguard]
    have hfalse : comment.hasMoreReplies = false := by
      have := (Bool.and_eq_true _ _).mp hguard
      have h1 := this.1
      cases hb : comment.hasMoreReplies
      · rfl
      · rw [hb] at h1
        simp at h1
    exact ⟨hfalse, fun h _ => h⟩
  · rw [if_neg hguard]
    obtain ⟨l, hl⟩ := expandRepliesLoop_ok fetch comment.id (comment.replies.map (·.id)) hok
      5 0 (comment.repliesEndCursor.getD "") comment.replies comment.hasMoreReplies
    dsimp only
    rw [hl]
    refine ⟨rfl, ?_⟩
    intro hinit hpage
    exact expandRepliesLoop_nodup fetch comment.id (comment.replies.map (·.id)) hpage
      5 0 (comment.repliesEndCursor.getD "") comment.replies comment.hasMoreReplies hinit l hl

/-- On a fetch exception the catch of _expandReplies leaves the comment
with its pre-expansion replies and cursor and only sets hasMoreReplies
back to true. -/
theorem expandReplies_error
    (fetch : Nat → ReplyRequest → Except Unit (Option RawRepliesData))
    (comment : LCComment) (e : Unit)
    (herr : (expandRepliesLoop fetch comment.id (comment.replies.map (·.id)) 5 0
      (comment.repliesEndCursor.getD "") comment.replies comment.hasMoreReplies).1 = .error e) :
    expandReplies fetch comment = { comment with hasMoreReplies := true } := by
  rw [expandReplies, expandRepliesWithTrace]
  by_cases hguard : (!comment.hasMoreReplies &&
      decide (comment.repliesCount ≤ comment.replies.length)) = true
  · exfalso
    have hfalse : comment.hasMoreReplies = false := by
      have := (Bool.and_eq_true _ _).mp hguard
      have h1 := this.1
      cases hb : comment.hasMoreReplies
      · rfl
      · rw [hb] at h1
        simp at h1
    rw [hfalse, expandRepliesLoop_hasMore_false] at herr
    simp at herr
  · rw [if_neg hguard]
    dsimp only
    rw [herr]

/-! # Lemmas about the thread-comment reply fetcher -/
/-- The wire request built by fetchCommentReplies: the exclusion list is
forwarded only when the cursor is the empty string. -/
theorem fetchCommentReplies_snd (resp : Except Unit (Option RawTCommentData))
    (cursor : Option String) (excl : List String) :
    (fetchCommentReplies resp cursor excl).2 =
      ⟨cursor, if cursor = some "" then excl else []⟩ := by
  cases resp with
  | error e => rfl
  | ok v =>
    cases v with
    | none => rfl
    | some cd =>
      cases hr : cd.replies with
      | none =>
        simp only [fetchCommentReplies, hr]
      | some rd =>
        simp only [fetchCommentReplies, hr]

theorem fetchCommentReplies_error (e : Unit) (cursor : Option String) (excl : List String) :
    (fetchCommentReplies (.error e) cursor excl).1 = ⟨[], false, none, 0⟩ := rfl

theorem fetchAllRepliesLoop_guard_false
    (fetch : Nat → Except Unit (Option RawTCommentData)) (fuel attempts : Nat)
    (hasMore : Bool) (cursor : Option String) (acc : List TReply)
    (h : (hasMore && cursorTruthy cursor) = false) :
    fetchAllRepliesLoop fetch fuel attempts hasMore cursor acc = (acc, []) := by
  cases fuel with
  | zero => rfl
  | succ n =>
    simp only [fetchAllRepliesLoop, h]
    rfl

/-- Attempt bound of fetchAllRepliesForComment: the pagination loop makes
at most fuel further requests. -/
theorem fetchAllRepliesLoop_trace_le
    (fetch : Nat → Except Unit (Option RawTCommentData)) :
    ∀ (fuel attempts : Nat) (hasMore : Bool) (cursor : Option String) (acc : List TReply),
      (fetchAllRepliesLoop fetch fuel attempts hasMore cursor acc).2.length ≤ fuel := by
  intro fuel
  induction fuel with
  | zero =>
    intro attempts hasMore cursor acc
    simp [fetchAllRepliesLoop]
  | succ n ih =>
    intro attempts hasMore cursor acc
    by_cases hg : (hasMore && cursorTruthy cursor) = true
    · simp only [fetchAllRepliesLoop, if_neg (by simp [hg] : ¬ (!(hasMore && cursorTruthy cursor)) = true)]
      simp only [List.length_cons]
      have := ih (attempts + 1)
        (fetchCommentReplies (fetch (attempts + 1)) cursor (acc.map (·.node.id))).1.hasNextPage
        (fetchCommentReplies (fetch (attempts + 1)) cursor (acc.map (·.node.id))).1.nextCursor
        (if (fetchCommentReplies (fetch (attempts + 1)) cursor (acc.map (·.node.id))).1.replies.length = 0
          then acc
          else acc ++ (fetchCommentReplies (fetch (attempts + 1)) cursor (acc.map (·.node.id))).1.replies.filter
            fun r => !(acc.map (·.node.id)).contains r.node.id)
      omega
    · rw [fetchAllRepliesLoop_guard_false fetch _ _ _ _ _ (by
        cases hb : (hasMore && cursorTruthy cursor)
        · rfl
        · exact absurd hb hg)]
      simp

/-- Every wire request of the thread-reply pagination loop carries an
empty exclusion list (the cursor is nonempty there, so the exclusion list
argument is dropped by fetchCommentReplies). -/
theorem fetchAllRepliesLoop_excluded_empty
    (fetch : Nat → Except Unit (Option RawTCommentData)) :
    ∀ (fuel attempts : Nat) (hasMore : Bool) (cursor : Option String) (acc : List TReply) (j : Nat),
      j < (fetchAllRepliesLoop fetch fuel attempts hasMore cursor acc).2.length →
      ((fetchAllRepliesLoop fetch fuel attempts hasMore cursor acc).2.getD j
        ⟨none, []⟩).excludedCommentIds = [] := by
  intro fuel
  induction fuel with
  | zero =>
    intro attempts hasMore cursor acc j hj
    simp [fetchAllRepliesLoop] at hj
  | succ n ih =>
    intro attempts hasMore cursor acc j hj
    by_cases hg : (hasMore && cursorTruthy cursor) = true
    · simp only [fetchAllRepliesLoop,
        if_neg (by simp [hg] : ¬ (!(hasMore && cursorTruthy cursor)) = true)] at hj ⊢
      have hcur : ¬ cursor = some "" := by
        intro hcc
        rw [hcc] at hg
        simp [cursorTruthy] at hg
      cases j with
      | zero =>
        simp only [List.getD_cons_zero, fetchCommentReplies_snd, if_neg hcur]
      | succ j' =>
        simp only [List.length_cons] at hj
        simp only [List.getD_cons_succ]
        exact ih (attempts + 1) _ _ _ j' (by omega)
    · rw [fetchAllRepliesLoop_guard_false fetch _ _ _ _ _ (by
        cases hb : (hasMore && cursorTruthy cursor)
        · rfl
        · exact absurd hb hg)] at hj
      simp at hj

/-- The pagination loop only appends: everything accumulated on entry is
kept in the result. -/
theorem fetchAllRepliesLoop_keeps
    (fetch : Nat → Except Unit (Option RawTCommentData)) :
    ∀ (fuel attempts : Nat) (hasMore : Bool) (cursor : Option String) (acc : List TReply),
      ∃ t, (fetchAllRepliesLoop fetch fuel attempts hasMore cursor acc).1 = acc ++ t := by
  intro fuel
  induction fuel with
  | zero =>
    intro attempts hasMore cursor acc
    exact ⟨[], by simp [fetchAllRepliesLoop]⟩
  | succ n ih =>
    intro attempts hasMore cursor acc
    by_cases hg : (hasMore && cursorTruthy cursor) = true
    · simp only [fetchAllRepliesLoop,
        if_neg (by simp [hg] : ¬ (!(hasMore && cursorTruthy cursor)) = true)]
      by_cases h0 : (fetchCommentReplies (fetch (attempts + 1)) cursor
          (acc.map (·.node.id))).1.replies.length = 0
      · rw [if_pos h0]
        exact ih (attempts + 1) _ _ acc
      · rw [if_neg h0]
        obtain ⟨t, ht⟩ := ih (attempts + 1)
          (fetchCommentReplies (fetch (attempts + 1)) cursor (acc.map (·.node.id))).1.hasNextPage
          (fetchCommentReplies (fetch (attempts + 1)) cursor (acc.map (·.node.id))).1.nextCursor
          (acc ++ (fetchCommentReplies (fetch (attempts + 1)) cursor (acc.map (·.node.id))).1.replies.filter
            fun r => !(acc.map (·.node.id)).contains r.node.id)
        rw [ht]
        exact ⟨_, List.append_assoc _ _ _⟩
    · rw [fetchAllRepliesLoop_guard_false fetch _ _ _ _ _ (by
        cases hb : (hasMore && cursorTruthy cursor)
        · rfl
        · exact absurd hb hg)]
      exact ⟨[], by simp⟩

/-- A thrown page fetch in the thread-reply pagination loop is absorbed
by fetchCommentReplies as an empty no-next-page result: the loop stops
after that single request and returns exactly the accumulated replies. -/
theorem fetchAllRepliesLoop_error_stop
    (fetch : Nat → Except Unit (Option RawTCommentData)) (fuel attempts : Nat)
    (hasMore : Bool) (cursor : Option String) (acc : List TReply) (e : Unit)
    (hg : (hasMore && cursorTruthy cursor) = true)
    (herr : fetch (attempts + 1) = .error e) :
    fetchAllRepliesLoop fetch (fuel + 1) attempts hasMore cursor acc =
      (acc, [⟨cursor, []⟩]) := by
  have hcur : ¬ cursor = some "" := by
    intro hcc
    rw [hcc] at hg
    simp [cursorTruthy] at hg
  simp only [fetchAllRepliesLoop,
    if_neg (by simp [hg] : ¬ (!(hasMore && cursorTruthy cursor)) = true), herr]
  simp only [fetchCommentReplies_error, fetchCommentReplies_snd, if_neg hcur]
  rw [fetchAllRepliesLoop_guard_false fetch fuel (attempts + 1) false none _ rfl]
  simp

/-- fetchAllRepliesForComment never makes more than 5 requests in total. -/
theorem fetchAllRepliesForComment_trace_le
    (fetch : Nat → Except Unit (Option RawTCommentData)) (comment : TComment) :
    (fetchAllRepliesForComment fetch comment).2.length ≤ 5 := by
  rw [fetchAllRepliesForComment]
  by_cases hguard : (!comment.hasMoreReplies || !cursorTruthy comment.repliesEndCursor) = true
  · rw [if_pos hguard]
    simp
  · rw [if_neg hguard]
    dsimp only
    simp only [List.length_cons]
    have := fetchAllRepliesLoop_trace_le fetch 4 1
      (fetchCommentReplies (fetch 1) (some "") []).1.hasNextPage
      (fetchCommentReplies (fetch 1) (some "") []).1.nextCursor
      (if (fetchCommentReplies (fetch 1) (some "") []).1.replies.length = 0
        then comment.replies
        else comment.replies ++ (fetchCommentReplies (fetch 1) (some "") []).1.replies.filter
          fun r => !(comment.replies.map (·.node.id)).contains r.node.id)
    omega

/-- Every request of a thread-comment reply-expansion run, the first one
included, carries an empty exclusion list at the wire level. -/
theorem fetchAllRepliesForComment_excluded_empty
    (fetch : Nat → Except Unit (Option RawTCommentData)) (comment : TComment) (j : Nat)
    (hj : j < (fetchAllRepliesForComment fetch comment).2.length) :
    ((fetchAllRepliesForComment fetch comment).2.getD j ⟨none, []⟩).excludedCommentIds = [] := by
  rw [fetchAllRepliesForComment] at hj ⊢
  by_cases hguard : (!comment.hasMoreReplies || !cursorTruthy comment.repliesEndCursor) = true
  · rw [if_pos hguard] at hj
    simp at hj
  · rw [if_neg hguard] at hj ⊢
    dsimp only at hj ⊢
    cases j with
    | zero =>
      simp only [List.getD_cons_zero, fetchCommentReplies_snd]
      simp
    | succ j' =>
      simp only [List.length_cons] at hj
      simp only [List.getD_cons_succ]
      exact fetchAllRepliesLoop_excluded_empty fetch 4 1 _ _ _ j' (by omega)

/-- fetchAllRepliesForComment keeps the initial replies of the comment as
a prefix of its result, whatever the oracle does (exceptions included). -/
theorem fetchAllRepliesForComment_keeps
    (fetch : Nat → Except Unit (Option RawTCommentData)) (comment : TComment) :
    ∃ t, (fetchAllRepliesForComment fetch comment).1 = comment.replies ++ t := by
  rw [fetchAllRepliesForComment]
  by_cases hguard : (!comment.hasMoreReplies || !cursorTruthy comment.repliesEndCursor) = true
  · rw [if_pos hguard]
    exact ⟨[], by simp⟩
  · rw [if_neg hguard]
    dsimp only
    by_cases h0 : (fetchCommentReplies (fetch 1) (some "") []).1.replies.length = 0
    · rw [if_pos h0]
      exact fetchAllRepliesLoop_keeps fetch 4 1 _ _ comment.replies
    · rw [if_neg h0]
      obtain ⟨t, ht⟩ := fetchAllRepliesLoop_keeps fetch 4 1
        (fetchCommentReplies (fetch 1) (some "") []).1.hasNextPage
        (fetchCommentReplies (fetch 1) (some "") []).1.nextCursor
        (comment.replies ++ (fetchCommentReplies (fetch 1) (some "") []).1.replies.filter
          fun r => !(comment.replies.map (·.node.id)).contains r.node.id)
      rw [ht]
      exact ⟨_, List.append_assoc _ _ _⟩

/-! # Lemmas about the sentiment enrichment -/
theorem mem_iff_exists_get? (l : List α) (a : α) : a ∈ l ↔ ∃ i, l.get? i = some a := by
  induction l with
  | nil =>
    constructor
    · intro h
      exact absurd h (List.not_mem_nil a)
    · rintro ⟨i, hi⟩
      rw [List.get?_nil] at hi
      exact absurd hi (by simp)
  | cons b bs ih =>
    constructor
    · intro h
      rcases List.mem_cons.mp h with h | h
      · exact ⟨0, by rw [h]; rfl⟩
      · obtain ⟨i, hi⟩ := ih.mp h
        exact ⟨i + 1, hi⟩
    · rintro ⟨i, hi⟩
      cases i with
      | zero =>
        injection hi with hi
        rw [hi]
        exact List.mem_cons_self a bs
      | succ j =>
        exact List.mem_cons_of_mem b (ih.mpr ⟨j, hi⟩)

theorem get?_some_lt (l : List α) (i : Nat) (a : α) (h : l.get? i = some a) :
    i < l.length := by
  induction l generalizing i with
  | nil =>
    rw [List.get?_nil] at h
    exact absurd h (by simp)
  | cons b bs ih =>
    cases i with
    | zero =>
      simp [List.length_cons]
    | succ j =>
      rw [List.get?_cons_succ] at h
      have := ih j h
      simp only [List.length_cons]
      omega

theorem updateAt_length (l : List α) (n : Nat) (f : α → α) :
    (updateAt l n f).length = l.length := by
  induction l generalizing n with
  | nil => rfl
  | cons a as ih =>
    cases n with
    | zero => rfl
    | succ m =>
      simp only [updateAt, List.length_cons, ih]

theorem updateAt_get? (l : List α) (n : Nat) (f : α → α) (m : Nat) :
    (updateAt l n f).get? m = if m = n then (l.get? m).map f else l.get? m := by
  induction l generalizing n m with
  | nil =>
    simp only [updateAt, List.get?_nil]
    split <;> rfl
  | cons a as ih =>
    cases n with
    | zero =>
      cases m with
      | zero => rfl
      | succ j =>
        simp only [updateAt, List.get?_cons_succ, if_neg (by omega : ¬ j + 1 = 0)]
    | succ k =>
      cases m with
      | zero =>
        simp only [updateAt, List.get?_cons_zero, if_neg (by omega : ¬ 0 = k + 1)]
      | succ j =>
        simp only [updateAt, List.get?_cons_succ]
        rw [ih k j]
        by_cases h : j = k
        · rw [if_pos h, if_pos (by omega : j + 1 = k + 1)]
        · rw [if_neg h, if_neg (by omega : ¬ j + 1 = k + 1)]

/-- With pairwise distinct ids, the JS findIndex on an id match locates
exactly the sought element. -/
theorem jsFindIndex_nodup_get (l : List Review) (b : Review)
    (hnodup : (l.map (·.id)).Nodup) (hmem : b ∈ l) :
    ∀ i, jsFindIndex (fun x => x.id == b.id) l = some i → l.get? i = some b := by
  induction l with
  | nil => intro i hi; exact absurd hmem (List.not_mem_nil b)
  | cons a as ih =>
    intro i hi
    simp only [jsFindIndex] at hi
    by_cases hab : (a.id == b.id) = true
    · rw [if_pos hab] at hi
      injection hi with hi
      rw [← hi]
      have haid : a.id = b.id := by
        exact eq_of_beq hab
      rcases List.mem_cons.mp hmem with h | h
      · rw [h]
        rfl
      · exfalso
        have hmap : b.id ∈ as.map (·.id) := List.mem_map_of_mem _ h
        have hnc := List.nodup_cons.mp (show (a.id :: as.map (·.id)).Nodup from hnodup)
        rw [← haid] at hmap
        exact hnc.1 hmap
    · rw [if_neg hab] at hi
      cases hfi : jsFindIndex (fun x => x.id == b.id) as with
      | none =>
        rw [hfi] at hi
        simp at hi
      | some j =>
        rw [hfi] at hi
        simp only [Option.map_some'] at hi
        injection hi with hi
        have hba : b ≠ a := by
          intro hb
          rw [hb] at hab
          simp at hab
        have hbas : b ∈ as := by
          rcases List.mem_cons.mp hmem with h | h
          · exact absurd h hba
          · exact h
        have := ih
          (List.nodup_cons.mp (show (a.id :: as.map (·.id)).Nodup from hnodup)).2 hbas j hfi
        rw [← hi]
        simpa using this

/-- Batching preserves membership: elements of a chunk come from the
chunked list. -/
theorem chunk10Fuel_congr :
    ∀ (n : Nat) (l : List α) (m : Nat), l.length ≤ n → l.length ≤ m →
      chunk10Fuel n l = chunk10Fuel m l := by
  intro n
  induction n with
  | zero =>
    intro l m hn hm
    have hl : l = [] := List.length_eq_zero.mp (Nat.le_zero.mp hn)
    subst hl
    cases m with
    | zero => rfl
    | succ m' => rfl
  | succ n' ih =>
    intro l m hn hm
    cases l with
    | nil =>
      cases m with
      | zero => rfl
      | succ m' => rfl
    | cons a as =>
      cases m with
      | zero => simp at hm
      | succ m' =>
        rw [chunk10Fuel, chunk10Fuel]
        congr 1
        apply ih
        · simp only [List.length_drop, List.length_cons]
          simp only [List.length_cons] at hn
          omega
        · simp only [List.length_drop, List.length_cons]
          simp only [List.length_cons] at hm
          omega

theorem chunk10_nil : chunk10 ([] : List α) = [] := rfl

/-- The usual unfolding of the batch slicing. -/
theorem chunk10_cons (a : α) (as : List α) :
    chunk10 (a :: as) = ((a :: as).take 10) :: chunk10 ((a :: as).drop 10) := by
  show chunk10Fuel (a :: as).length (a :: as) = _
  rw [List.length_cons, chunk10Fuel]
  congr 1
  apply chunk10Fuel_congr
  · simp only [List.length_drop, List.length_cons]
    omega
  · exact Nat.le_refl _

theorem chunk10_subset_aux :
    ∀ (n : Nat) (l : List α) (c : List α), l.length ≤ n → c ∈ chunk10 l →
      ∀ y ∈ c, y ∈ l := by
  intro n
  induction n with
  | zero =>
    intro l c hlen hc y hy
    have : l = [] := by
      cases l with
      | nil => rfl
      | cons a as => simp at hlen
    rw [this] at hc
    simp [chunk10_nil] at hc
  | succ m ih =>
    intro l c hlen hc y hy
    cases l with
    | nil => simp [chunk10_nil] at hc
    | cons a as =>
      rw [chunk10_cons] at hc
      rcases List.mem_cons.mp hc with h | h
      · rw [h] at hy
        exact List.take_subset 10 (a :: as) hy
      · have hdrop : ((a :: as).drop 10).length ≤ m := by
          simp only [List.length_drop, List.length_cons]
          simp only [List.length_cons] at hlen
          omega
        exact List.drop_subset 10 (a :: as) (ih ((a :: as).drop 10) c hdrop h y hy)

theorem applySentimentResults_inv (reviews : List Review)
    (hnodup : (reviews.map (·.id)).Nodup) :
    ∀ (batch : List Review) (results : List (Option String)) (enhanced : List Review),
      (∀ b ∈ batch, b ∈ reviews ∧ b.rating = none) →
      SentimentInv reviews enhanced →
      SentimentInv reviews (applySentimentResults reviews batch results enhanced) := by
  intro batch
  induction batch with
  | nil =>
    intro results enhanced hbatch hinv
    cases results with
    | nil => exact hinv
    | cons r rs => exact hinv
  | cons b bs ih =>
    intro results enhanced hbatch hinv
    cases results with
    | nil => exact hinv
    | cons r rs =>
      simp only [applySentimentResults]
      apply ih rs _ (fun x hx => hbatch x (List.mem_cons_of_mem b hx))
      cases r with
      | none => exact hinv
      | some s =>
        cases hfi : jsFindIndex (fun x => x.id == b.id) reviews with
        | none => exact hinv
        | some idx =>
          have hb := hbatch b (List.mem_cons_self b bs)
          have hgot := jsFindIndex_nodup_get reviews b hnodup hb.1 idx hfi
          constructor
          · rw [updateAt_length]
            exact hinv.1
          · intro i r0 hr0
            obtain ⟨r1, hr1, hid, hrat, hsent⟩ := hinv.2 i r0 hr0
            by_cases hi : i = idx
            · subst hi
              refine ⟨{ r1 with sentiment := some s }, ?_, hid, hrat, ?_⟩
              · rw [updateAt_get?, if_pos rfl, hr1]
                rfl
              · intro _
                have : r0 = b := by
                  rw [hgot] at hr0
                  injection hr0 with h
                  exact h.symm
                rw [this]
                exact hb.2
            · refine ⟨r1, ?_, hid, hrat, hsent⟩
              rw [updateAt_get?, if_neg hi]
              exact hr1

theorem sentimentBatchLoop_inv (reviews : List Review)
    (extractor : Nat → List (Option String))
    (hnodup : (reviews.map (·.id)).Nodup) :
    ∀ (chunks : List (List Review)) (i : Nat) (enhanced : List Review),
      (∀ c ∈ chunks, ∀ b ∈ c, b ∈ reviews ∧ b.rating = none) →
      SentimentInv reviews enhanced →
      SentimentInv reviews (sentimentBatchLoop reviews extractor chunks i enhanced) := by
  intro chunks
  induction chunks with
  | nil =>
    intro i enhanced hc hinv
    exact hinv
  | cons c cs ih =>
    intro i enhanced hc hinv
    simp only [sentimentBatchLoop]
    apply ih (i + 1) _ (fun x hx => hc x (List.mem_cons_of_mem c hx))
    exact applySentimentResults_inv reviews hnodup c (extractor i) enhanced
      (hc c (List.mem_cons_self c cs)) hinv

/-- Mutual exclusivity of rating and sentiment after enrichment, given
pairwise distinct review ids and the all-null initial sentiments
established by the parser. -/
theorem extractSentiment_exclusive (reviews : List Review)
    (extractor : Nat → List (Option String))
    (hnodup : (reviews.map (·.id)).Nodup)
    (hinit : ∀ r ∈ reviews, r.sentiment = none) :
    ∀ r ∈ extractSentiment reviews extractor,
      (r.rating ≠ none → r.sentiment = none) ∧
      (r.sentiment ≠ none → r.rating = none) := by
  intro r hr
  rw [extractSentiment] at hr
  by_cases hempty : (reviews.filter fun x => x.rating.isNone).length = 0
  · rw [if_pos hempty] at hr
    have := hinit r hr
    constructor
    · intro _
      exact this
    · intro hs
      exact absurd this hs
  · rw [if_neg hempty] at hr
    have hinv0 : SentimentInv reviews reviews := by
      refine ⟨rfl, ?_⟩
      intro i r0 hr0
      refine ⟨r0, hr0, rfl, rfl, ?_⟩
      intro hs
      exact absurd (hinit r0 ((mem_iff_exists_get? reviews r0).mpr ⟨i, hr0⟩)) hs
    have hchunks : ∀ c ∈ chunk10 (reviews.filter fun x => x.rating.isNone),
        ∀ b ∈ c, b ∈ reviews ∧ b.rating = none := by
      intro c hc b hb
      have hbf := chunk10_subset_aux
        (reviews.filter fun x => x.rating.isNone).length
        (reviews.filter fun x => x.rating.isNone) c (Nat.le_refl _) hc b hb
      have := List.mem_filter.mp hbf
      exact ⟨this.1, Option.isNone_iff_eq_none.mp this.2⟩
    have hinv := sentimentBatchLoop_inv reviews extractor hnodup
      (chunk10 (reviews.filter fun x => x.rating.isNone)) 0 reviews hchunks hinv0
    obtain ⟨i, hi⟩ := (mem_iff_exists_get? _ r).mp hr
    have hlen : i < reviews.length := by
      have := get?_some_lt _ i r hi
      rw [hinv.1] at this
      exact this
    obtain ⟨r0, hr0⟩ : ∃ r0, reviews.get? i = some r0 :=
      ⟨reviews.get ⟨i, hlen⟩, List.get?_eq_get hlen⟩
    obtain ⟨r1, hr1, hid, hrat, hsent⟩ := hinv.2 i r0 hr0
    have hrr1 : r = r1 := by
      rw [hi] at hr1
      exact Option.some.inj hr1
    subst hrr1
    constructor
    · intro hrating
      by_contra hs
      have := hsent hs
      rw [hrat] at hrating
      exact hrating this
    · intro hs
      rw [hrat]
      exact hsent hs

/-- The parser initializes every sentiment to null. -/
theorem parseReviews_sentiment_none (reviewsData : Option RawReviewsData) :
    ∀ r ∈ parseReviews reviewsData, r.sentiment = none := by
  intro r hr
  cases reviewsData with
  | none => simp [parseReviews] at hr
  | some rd =>
    cases he : rd.edges with
    | none =>
      rw [parseReviews, he] at hr
      simp at hr
    | some edges =>
      rw [parseReviews, he] at hr
      obtain ⟨e, _, hre⟩ := List.mem_map.mp hr
      rw [← hre]
      rfl

/-! # Lemmas about the maker correlator -/
theorem lookupAuthor_update_ne (id : String) (f : AuthorActivity → AuthorActivity) :
    ∀ (m : AuthorIndex) (k : String), id ≠ k →
      lookupAuthor (updateActivity m k f) id = lookupAuthor m id := by
  intro m
  induction m with
  | nil =>
    intro k h
    simp only [updateActivity, lookupAuthor]
    rw [if_neg (fun hk => h hk.symm)]
  | cons e rest ih =>
    intro k h
    obtain ⟨a, v⟩ := e
    simp only [updateActivity]
    by_cases hak : a = k
    · rw [if_pos hak]
      simp only [lookupAuthor]
      rw [if_neg (by rw [hak]; exact fun hk => h hk.symm),
        if_neg (by rw [hak]; exact fun hk => h hk.symm)]
    · rw [if_neg hak]
      simp only [lookupAuthor]
      by_cases hai : a = id
      · rw [if_pos hai, if_pos hai]
      · rw [if_neg hai, if_neg hai]
        exact ih k h

/-- Generic preservation of an absent key through a fold of index
updates. -/
theorem foldl_lookup_none {β : Type} (step : AuthorIndex → β → AuthorIndex)
    (ids : β → List String) (id : String)
    (hstep : ∀ m x, lookupAuthor m id = none → id ∉ ids x →
      lookupAuthor (step m x) id = none) :
    ∀ (l : List β) (m : AuthorIndex), lookupAuthor m id = none →
      (∀ x ∈ l, id ∉ ids x) → lookupAuthor (l.foldl step m) id = none := by
  intro l
  induction l with
  | nil =>
    intro m hm _
    exact hm
  | cons x xs ih =>
    intro m hm hl
    simp only [List.foldl_cons]
    exact ih (step m x) (hstep m x hm (hl x (List.mem_cons_self x xs)))
      (fun y hy => hl y (List.mem_cons_of_mem x hy))

theorem scanLaunchComment_none (launch : CorrLaunch) (c : LCComment) (id : String)
    (m : AuthorIndex) (hm : lookupAuthor m id = none)
    (hid : id ∉ launchCommentIds c) :
    lookupAuthor (scanLaunchComment launch m c) id = none := by
  rw [scanLaunchComment]
  have hm1 : ∀ m', lookupAuthor m' id = none →
      lookupAuthor
        (match lcAuthorIdOf c.author with
         | some aid =>
           updateActivity m' aid fun act =>
             { act with
               launchComments := act.launchComments ++
                 [⟨c.id, none, launch.id, launch.name, c.body, c.createdAt, c.votesCount,
                   some c.isSticky, none⟩] }
         | none => m') id = none := by
    intro m' hm'
    cases ha : lcAuthorIdOf c.author with
    | none => exact hm'
    | some aid =>
      have hne : id ≠ aid := by
        intro he
        apply hid
        rw [launchCommentIds, ha, he]
        exact List.mem_append_left _ (List.mem_singleton_self aid)
      rw [lookupAuthor_update_ne id _ m' aid hne]
      exact hm'
  apply foldl_lookup_none _ (fun r => (lcAuthorIdOf r.author).toList) id
  · intro m' r hm' hr
    cases ha : lcAuthorIdOf r.author with
    | none => exact hm'
    | some aid =>
      have hne : id ≠ aid := by
        intro he
        apply hr
        rw [ha, he]
        simp
      rw [lookupAuthor_update_ne id _ m' aid hne]
      exact hm'
  · exact hm1 m hm
  · intro r hrmem hr
    apply hid
    rw [launchCommentIds]
    apply List.mem_append_right
    cases ha : lcAuthorIdOf r.author with
    | none =>
      rw [ha] at hr
      simp at hr
    | some aid =>
      rw [ha] at hr
      simp only [Option.toList] at hr
      have : id = aid := by
        rcases List.mem_singleton.mp hr with h
        exact h
      rw [this]
      exact List.mem_filterMap.mpr ⟨r, hrmem, ha⟩

theorem scanLaunch_none (l : CorrLaunch) (id : String) (m : AuthorIndex)
    (hm : lookupAuthor m id = none) (hid : id ∉ corrLaunchIds l) :
    lookupAuthor (scanLaunch m l) id = none := by
  rw [scanLaunch]
  cases hc : l.comments with
  | none => exact hm
  | some cs =>
    apply foldl_lookup_none _ launchCommentIds id
    · intro m' c hm' hcid
      exact scanLaunchComment_none l c id m' hm' hcid
    · exact hm
    · intro c hcmem hcid
      apply hid
      rw [corrLaunchIds, hc]
      exact List.mem_flatMap.mpr ⟨c, hcmem, hcid⟩

theorem scanThreadComment_none (thread : FThread) (c : FThreadComment) (id : String)
    (m : AuthorIndex) (hm : lookupAuthor m id = none)
    (hid : id ∉ threadCommentIds c) :
    lookupAuthor (scanThreadComment thread m c) id = none := by
  rw [scanThreadComment]
  have hm1 : lookupAuthor
      (match authorIdOf c.authorDetails with
       | some aid =>
         updateActivity m aid fun act =>
           { act with
             forumComments := act.forumComments ++
               [⟨c.id, none, thread.id, thread.title, c.content, c.date, c.upvotesCount,
                 false⟩] }
       | none => m) id = none := by
    cases ha : authorIdOf c.authorDetails with
    | none => exact hm
    | some aid =>
      have hne : id ≠ aid := by
        intro he
        apply hid
        rw [threadCommentIds, ha, he]
        exact List.mem_append_left _ (List.mem_singleton_self aid)
      rw [lookupAuthor_update_ne id _ m aid hne]
      exact hm
  cases hr : c.replies with
  | none => exact hm1
  | some rs =>
    apply foldl_lookup_none _ (fun r => (authorIdOf r.authorDetails).toList) id
    · intro m' r hm' hrid
      cases ha : authorIdOf r.authorDetails with
      | none => exact hm'
      | some aid =>
        have hne : id ≠ aid := by
          intro he
          apply hrid
          rw [ha, he]
          simp
        rw [lookupAuthor_update_ne id _ m' aid hne]
        exact hm'
    · exact hm1
    · intro r hrmem hrid
      apply hid
      rw [threadCommentIds]
      apply List.mem_append_right
      rw [hr]
      cases ha : authorIdOf r.authorDetails with
      | none =>
        rw [ha] at hrid
        simp at hrid
      | some aid =>
        rw [ha] at hrid
        simp only [Option.toList] at hrid
        have : id = aid := by
          rcases List.mem_singleton.mp hrid with h
          exact h
        rw [this]
        exact List.mem_filterMap.mpr ⟨r, hrmem, ha⟩

theorem scanThread_none (t : FThread) (id : String) (m : AuthorIndex)
    (hm : lookupAuthor m id = none) (hid : id ∉ fThreadIds t) :
    lookupAuthor (scanThread m t) id = none := by
  rw [scanThread]
  have hm1 : lookupAuthor
      (match t.comments with
       | some cs => cs.foldl (scanThreadComment t) m
       | none => m) id = none := by
    cases hc : t.comments with
    | none => exact hm
    | some cs =>
      apply foldl_lookup_none _ threadCommentIds id
      · intro m' c hm' hcid
        exact scanThreadComment_none t c id m' hm' hcid
      · exact hm
      · intro c hcmem hcid
        apply hid
        rw [fThreadIds, hc]
        exact List.mem_append_left _ (List.mem_flatMap.mpr ⟨c, hcmem, hcid⟩)
  cases ha : authorIdOf t.authorDetails with
  | none => exact hm1
  | some aid =>
    have hne : id ≠ aid := by
      intro he
      apply hid
      rw [fThreadIds, ha, he]
      exact List.mem_append_right _ (List.mem_singleton_self aid)
    rw [lookupAuthor_update_ne id _ _ aid hne]
    exact hm1

/-- An identifier appearing nowhere in the scanned launches and threads
is absent from the commentsByAuthor index. -/
theorem buildLaunchIndex_none (launchesData : Option CorrLaunchesData) (id : String)
    (hidl : ∀ l, launchesData = some l → ∀ launches, l.launches = some launches →
      ∀ x ∈ launches, id ∉ corrLaunchIds x) :
    lookupAuthor (buildLaunchIndex launchesData) id = none := by
  cases launchesData with
  | none => rfl
  | some ld =>
    rw [buildLaunchIndex]
    cases hls : ld.launches with
    | none => rfl
    | some launches =>
      apply foldl_lookup_none _ corrLaunchIds id
      · intro m' x hm' hxid
        exact scanLaunch_none x id m' hm' hxid
      · rfl
      · exact hidl ld rfl launches hls

theorem buildCommentsByAuthor_none (launchesData : Option CorrLaunchesData)
    (threadsData : Option CorrThreadsData) (id : String)
    (hid : id ∉ scannedAuthorIds launchesData threadsData) :
    lookupAuthor (buildCommentsByAuthor launchesData threadsData) id = none := by
  have hm1 : lookupAuthor (buildLaunchIndex launchesData) id = none := by
    apply buildLaunchIndex_none
    intro l hl launches hls x hx hin
    apply hid
    rw [scannedAuthorIds.eq_def, hl]
    dsimp only
    rw [hls]
    exact List.mem_append_left _ (List.mem_flatMap.mpr ⟨x, hx, hin⟩)
  have hidt : ∀ t, threadsData = some t → ∀ threads, t.threads = some threads →
      ∀ x ∈ threads, id ∉ fThreadIds x := by
    intro t ht threads hts x hx hin
    apply hid
    rw [scannedAuthorIds.eq_def, ht]
    dsimp only
    rw [hts]
    exact List.mem_append_right _ (List.mem_flatMap.mpr ⟨x, hx, hin⟩)
  clear hid
  revert hidt
  cases threadsData with
  | none =>
    intro _
    exact hm1
  | some td =>
    intro hidt
    rw [buildCommentsByAuthor]
    cases hts : td.threads with
    | none => exact hm1
    | some threads =>
      apply foldl_lookup_none _ fThreadIds id
      · intro m' x hm' hxid
        exact scanThread_none x id m' hm' hxid
      · exact hm1
      · exact hidt td rfl threads hts

/-- When the early-return guard of _expandReplies fails, the request trace
is exactly the loop trace. -/
theorem expandRepliesWithTrace_snd
    (fetch : Nat → ReplyRequest → Except Unit (Option RawRepliesData))
    (comment : LCComment)
    (hguard : ¬ (!comment.hasMoreReplies &&
      decide (comment.repliesCount ≤ comment.replies.length)) = true) :
    (expandRepliesWithTrace fetch comment).2 =
      (expandRepliesLoop fetch comment.id (comment.replies.map (·.id)) 5 0
        (comment.repliesEndCursor.getD "") comment.replies comment.hasMoreReplies).2 := by
  rw [expandRepliesWithTrace, if_neg hguard]
  dsimp only
  cases h : (expandRepliesLoop fetch comment.id (comment.replies.map (·.id)) 5 0
      (comment.repliesEndCursor.getD "") comment.replies comment.hasMoreReplies).1 with
  | ok l => rfl
  | error e => rfl

/-- The early return of _expandReplies issues no request. -/
theorem expandRepliesWithTrace_snd_guard
    (fetch : Nat → ReplyRequest → Except Unit (Option RawRepliesData))
    (comment : LCComment)
    (hguard : (!comment.hasMoreReplies &&
      decide (comment.repliesCount ≤ comment.replies.length)) = true) :
    (expandRepliesWithTrace fetch comment).2 = [] := by
  rw [expandRepliesWithTrace, if_pos hguard]

/-! # Claim theorems -/
/-- Claim C1: for every paginated fetch operation (reviews, threads,
launches, launch comments) called with a finite limit L, a completed run
returns exactly the first L items of the concatenation of the batches it
consumed (so exactly L items whenever at least L arrived), and a further
page is requested only while the accumulated count is still strictly
below L. -/
theorem C1_limit_truncation :
    (∀ (b : Nat → List Review) (p : Nat → List Review → List Review) (L fuel : Nat),
      (∀ i, (p i (b i)).length = (b i).length) →
      (∀ items tot, (fetchReviews b p (some L) fuel).1 = some (items, tot) →
        items = (concatFrom (fun i => p i (b i)) 0
          (fetchReviews b p (some L) fuel).2.length).take L ∧
        (L ≤ (concatFrom (fun i => p i (b i)) 0
          (fetchReviews b p (some L) fuel).2.length).length → items.length = L)) ∧
      (∀ j, j + 1 < (fetchReviews b p (some L) fuel).2.length →
        (concatFrom (fun i => p i (b i)) 0 (j + 1)).length < L)) ∧
    (∀ (b : Nat → ThreadsBatch) (L fuel : Nat),
      (∀ items, (fetchThreads b (some L) fuel).1 = some items →
        items = (concatFrom (fun i => (b i).threads) 0
          (fetchThreads b (some L) fuel).2.length).take L ∧
        (L ≤ (concatFrom (fun i => (b i).threads) 0
          (fetchThreads b (some L) fuel).2.length).length → items.length = L)) ∧
      (∀ j, j + 1 < (fetchThreads b (some L) fuel).2.length →
        (concatFrom (fun i => (b i).threads) 0 (j + 1)).length < L)) ∧
    (∀ (b : Nat → LaunchesBatch) (L fuel : Nat),
      (∀ items, (fetchLaunches b (some L) fuel).1 = some items →
        items = (concatFrom (fun i => (b i).launches) 0
          (fetchLaunches b (some L) fuel).2.length).take L ∧
        (L ≤ (concatFrom (fun i => (b i).launches) 0
          (fetchLaunches b (some L) fuel).2.length).length → items.length = L)) ∧
      (∀ j, j + 1 < (fetchLaunches b (some L) fuel).2.length →
        (concatFrom (fun i => (b i).launches) 0 (j + 1)).length < L)) ∧
    (∀ (firstResp : Except Unit (Option RawPost))
      (nextResp : Nat → Except Unit RawNextData) (L : Nat) (fa : Bool)
      (ex : LCComment → LCComment) (fuel : Nat),
      (∀ res, (fetchLaunchComments firstResp nextResp (some L) fa ex fuel).1 = some res →
        res.parsedComments = (concatFrom (lcBatchItems firstResp nextResp fa ex) 1
          (fetchLaunchComments firstResp nextResp (some L) fa ex fuel).2.length).take L ∧
        (L ≤ (concatFrom (lcBatchItems firstResp nextResp fa ex) 1
          (fetchLaunchComments firstResp nextResp (some L) fa ex fuel).2.length).length →
          res.parsedComments.length = L)) ∧
      (∀ j, j + 1 < (fetchLaunchComments firstResp nextResp (some L) fa ex fuel).2.length →
        (concatFrom (lcBatchItems firstResp nextResp fa ex) 1 (j + 1)).length < L)) := by
  refine ⟨?_, ?_, ?_, ?_⟩
  · intro b p L fuel hp
    have H := fetchReviewsLoop_take b p L hp fuel 0 none [] 0 (by simp)
    constructor
    · intro items tot h
      have h1 := H.1 items tot h
      rw [List.nil_append] at h1
      refine ⟨h1, ?_⟩
      intro hL
      rw [h1, List.length_take]
      exact Nat.min_eq_left hL
    · intro j hj
      have h2 := H.2 j hj
      simpa using h2
  · intro b L fuel
    have H := fetchThreadsLoop_take b L fuel 0 none [] (by simp)
    constructor
    · intro items h
      have h1 := H.1 items h
      rw [List.nil_append] at h1
      refine ⟨h1, ?_⟩
      intro hL
      rw [h1, List.length_take]
      exact Nat.min_eq_left hL
    · intro j hj
      have h2 := H.2 j hj
      simpa using h2
  · intro b L fuel
    have H := fetchLaunchesLoop_take b L fuel 0 none [] (by simp)
    constructor
    · intro items h
      have h1 := H.1 items h
      rw [List.nil_append] at h1
      refine ⟨h1, ?_⟩
      intro hL
      rw [h1, List.length_take]
      exact Nat.min_eq_left hL
    · intro j hj
      have h2 := H.2 j hj
      simpa using h2
  · intro firstResp nextResp L fa ex fuel
    have H := fetchLaunchComments_take firstResp nextResp L fa ex fuel
    constructor
    · intro res h
      have h1 := H.1 res h
      refine ⟨h1.1, ?_⟩
      intro hL
      rw [h1.1, List.length_take]
      exact Nat.min_eq_left hL
    · exact H.2

/-- Witness for C1 at concrete runs of all four fetchers. -/
theorem C1_limit_truncation_witness :
    ((fetchReviews batchesW idProcW (some 7) 3).1 =
      some (List.replicate 7 reviewW, 10)) ∧
    (List.replicate 7 reviewW = (concatFrom (fun i => idProcW i (batchesW i)) 0
      (fetchReviews batchesW idProcW (some 7) 3).2.length).take 7) ∧
    ((fetchThreads tbatchesW (some 2) 3).1 = some [threadW, threadW]) ∧
    ([threadW, threadW] = (concatFrom (fun i => (tbatchesW i).threads) 0
      (fetchThreads tbatchesW (some 2) 3).2.length).take 2) ∧
    ((fetchLaunches lbatchesW (some 1) 2).1 = some [launchW]) ∧
    ([launchW] = (concatFrom (fun i => (lbatchesW i).launches) 0
      (fetchLaunches lbatchesW (some 1) 2).2.length).take 1) ∧
    ((fetchLaunchComments firstRespW nextRespW (some 2) false exIdW 3).1 =
      some ⟨3, 3, [lcCommentW "c1", lcCommentW "c2"]⟩) ∧
    ((⟨3, 3, [lcCommentW "c1", lcCommentW "c2"]⟩ : LCResult).parsedComments =
      (concatFrom (lcBatchItems firstRespW nextRespW false exIdW) 1
        (fetchLaunchComments firstRespW nextRespW (some 2) false exIdW 3).2.length).take 2) :=
  ⟨by decide,
   ((C1_limit_truncation.1 batchesW idProcW 7 3 (fun i => rfl)).1
      (List.replicate 7 reviewW) 10 (by decide)).1,
   by decide,
   ((C1_limit_truncation.2.1 tbatchesW 2 3).1 [threadW, threadW] (by decide)).1,
   by decide,
   ((C1_limit_truncation.2.2.1 lbatchesW 1 2).1 [launchW] (by decide)).1,
   by decide,
   ((C1_limit_truncation.2.2.2 firstRespW nextRespW 2 false exIdW 3).1
      ⟨3, 3, [lcCommentW "c1", lcCommentW "c2"]⟩ (by decide)).1⟩

/-- Claim C7: whenever a reviews page contains exactly 10 items the next
request's cursor is the Base64 encoding of the decimal running total of
reviews fetched so far, and after a page of fewer (or more) than 10 items
no further page is requested. -/
theorem C7_reviews_cursor (b : Nat → List Review) (p : Nat → List Review → List Review)
    (limit : Option Nat) (fuel j : Nat) :
    (j + 1 < (fetchReviews b p limit fuel).2.length →
      (b j).length = 10 ∧
      ((fetchReviews b p limit fuel).2.getD (j + 1) ⟨none, 0⟩).cursor =
        some (encodeCursor (batchTotal b (j + 1)))) ∧
    ((b j).length ≠ 10 → (fetchReviews b p limit fuel).2.length ≤ j + 1) := by
  have key : ∀ j', j' + 1 < (fetchReviews b p limit fuel).2.length →
      (b j').length = 10 ∧
      ((fetchReviews b p limit fuel).2.getD (j' + 1) ⟨none, 0⟩).cursor =
        some (encodeCursor (batchTotal b (j' + 1))) := by
    intro j' hj
    have H := fetchReviewsLoop_cursor_chain b p limit fuel 0 none [] 0 rfl j' hj
    rw [Nat.zero_add] at H
    exact H
  constructor
  · exact key j
  · intro h10
    by_contra hlt
    exact h10 (key j (Nat.lt_of_not_le hlt)).1

/-- Witness for C7: a 10-item page yields the cursor MTA= (Base64 of
"10"), and the following 1-item page ends pagination. -/
theorem C7_reviews_cursor_witness :
    (0 + 1 < (fetchReviews batchesW idProcW none 3).2.length) ∧
    ((batchesW 0).length = 10 ∧
      ((fetchReviews batchesW idProcW none 3).2.getD (0 + 1) ⟨none, 0⟩).cursor =
        some (encodeCursor (batchTotal batchesW (0 + 1)))) ∧
    ((batchesW 1).length ≠ 10) ∧
    ((fetchReviews batchesW idProcW none 3).2.length ≤ 1 + 1) :=
  ⟨by decide,
   (C7_reviews_cursor batchesW idProcW none 3 0).1 (by decide),
   by decide,
   (C7_reviews_cursor batchesW idProcW none 3 1).2 (by decide)⟩

/-- Claim C2 (amended): the parser initializes every review sentiment to
null, and provided the review identifiers are pairwise distinct, after
enrichment rating and sentiment are mutually exclusive on every review.
(As originally stated the claim fails when two reviews share an
identifier: the findIndex lookup then writes the sentiment of a null
rating review onto the first review carrying that identifier, which may
have a rating; see the counterexample.) -/
theorem C2_sentiment_exclusive :
    (∀ reviewsData, ∀ r ∈ parseReviews reviewsData, r.sentiment = none) ∧
    (∀ (reviews : List Review) (extractor : Nat → List (Option String)),
      (reviews.map (·.id)).Nodup →
      (∀ r ∈ reviews, r.sentiment = none) →
      ∀ r ∈ extractSentiment reviews extractor,
        (r.rating ≠ none → r.sentiment = none) ∧
        (r.sentiment ≠ none → r.rating = none)) :=
  ⟨parseReviews_sentiment_none, extractSentiment_exclusive⟩

/-- Counterexample to C2 as stated: two reviews share the identifier "",
the first has rating 5, the second a null rating.  The extractor labels
the second review, but findIndex locates the first, which ends up with
both a rating and a sentiment. -/
theorem C2_counterexample :
    (extractSentiment reviewsCX2 extractorCX2).get? 0 =
      some { reviewDupA with sentiment := some "positive" } ∧
    reviewDupA.rating = some 5 ∧
    (∃ r ∈ extractSentiment reviewsCX2 extractorCX2,
      r.rating ≠ none ∧ r.sentiment ≠ none) := by decide

/-- Witness for C2 on distinct-id reviews: the enriched null-rating review
satisfies mutual exclusivity. -/
theorem C2_sentiment_exclusive_witness :
    ((reviewsW2.map (·.id)).Nodup) ∧
    (({ reviewNoRatingW with id := "b", sentiment := some "positive" } : Review) ∈
      extractSentiment reviewsW2 extractorW2) ∧
    ((({ reviewNoRatingW with id := "b", sentiment := some "positive" } : Review).rating ≠
        none →
      ({ reviewNoRatingW with id := "b", sentiment := some "positive" } : Review).sentiment =
        none) ∧
     (({ reviewNoRatingW with id := "b", sentiment := some "positive" } : Review).sentiment ≠
        none →
      ({ reviewNoRatingW with id := "b", sentiment := some "positive" } : Review).rating =
        none)) :=
  ⟨by decide, by decide,
   C2_sentiment_exclusive.2 reviewsW2 extractorW2 (by decide) (by decide) _ (by decide)⟩

/-- Claim C3 (amended): on a page-fetch exception the launch-module
expander returns the comment with only its pre-expansion replies and
hasMoreReplies set to true (replies accumulated earlier in the same run
are discarded, and nothing propagates); the thread-module page fetcher
absorbs its own exceptions, so its pagination loop stops after the failing
request keeping everything accumulated, and fetchAllRepliesForComment
always returns the initial replies as a prefix of its total result.  (As
originally stated the claim fails for the launch module: replies fetched
by earlier pages of the same expansion run are lost; see the
counterexample.) -/
theorem C3_error_handling :
    (∀ (fetch : Nat → ReplyRequest → Except Unit (Option RawRepliesData))
      (comment : LCComment) (e : Unit),
      (expandRepliesLoop fetch comment.id (comment.replies.map (·.id)) 5 0
        (comment.repliesEndCursor.getD "") comment.replies comment.hasMoreReplies).1 =
        .error e →
      expandReplies fetch comment = { comment with hasMoreReplies := true }) ∧
    (∀ (fetch : Nat → Except Unit (Option RawTCommentData)) (fuel attempts : Nat)
      (hasMore : Bool) (cursor : Option String) (acc : List TReply) (e : Unit),
      (hasMore && cursorTruthy cursor) = true →
      fetch (attempts + 1) = .error e →
      fetchAllRepliesLoop fetch (fuel + 1) attempts hasMore cursor acc =
        (acc, [⟨cursor, []⟩])) ∧
    (∀ (fetch : Nat → Except Unit (Option RawTCommentData)) (comment : TComment),
      ∃ t, (fetchAllRepliesForComment fetch comment).1 = comment.replies ++ t) :=
  ⟨fun fetch comment e h => expandReplies_error fetch comment e h,
   fun fetch fuel attempts hasMore cursor acc e hg herr =>
     fetchAllRepliesLoop_error_stop fetch fuel attempts hasMore cursor acc e hg herr,
   fetchAllRepliesForComment_keeps⟩

/-- Counterexample to C3 as stated: the first reply page of commentCX3
successfully delivers reply r2, the second page fetch throws, and the
resulting comment has lost r2 — only the pre-expansion reply r1 remains,
with hasMoreReplies true. -/
theorem C3_counterexample :
    (fetchCX3 1 ⟨"cur", ["r1"]⟩ = .ok (some pageCX3)) ∧
    ((pageNewReplies "c1" pageCX3).map (·.id) = ["r2"]) ∧
    ((expandReplies fetchCX3 commentCX3).replies.map (·.id) = ["r1"]) ∧
    ((expandReplies fetchCX3 commentCX3).hasMoreReplies = true) := by
  refine ⟨rfl, rfl, ?_, ?_⟩ <;> rfl

/-- Witness for C3 at the throwing oracles. -/
theorem C3_error_handling_witness :
    ((expandRepliesLoop fetchCX3 commentCX3.id (commentCX3.replies.map (·.id)) 5 0
        (commentCX3.repliesEndCursor.getD "") commentCX3.replies
        commentCX3.hasMoreReplies).1 = .error ()) ∧
    (expandReplies fetchCX3 commentCX3 = { commentCX3 with hasMoreReplies := true }) ∧
    ((true && cursorTruthy (some "cur")) = true) ∧
    (tFetchCX6 1 = .error ()) ∧
    (fetchAllRepliesLoop tFetchCX6 4 0 true (some "cur") [] = ([], [⟨some "cur", []⟩])) :=
  ⟨rfl,
   C3_error_handling.1 fetchCX3 commentCX3 () rfl,
   by decide,
   rfl,
   C3_error_handling.2.1 tFetchCX6 3 0 true (some "cur") [] () (by decide) rfl⟩

/-- Claim C4 (amended): when reply expansion runs against an oracle that
never throws, the launch-module expander clears hasMoreReplies, and its
reply identifiers stay pairwise distinct provided the initial replies and
each fetched page are free of internal duplicates.  (As originally stated
the claim fails: the per-page merge only filters against the replies
accumulated before the page, so a page carrying the same reply id twice
puts both copies in the final list; see the counterexample.) -/
theorem C4_dedup
    (fetch : Nat → ReplyRequest → Except Unit (Option RawRepliesData))
    (comment : LCComment)
    (hok : ∀ a r, ∃ v, fetch a r = .ok v) :
    (expandReplies fetch comment).hasMoreReplies = false ∧
    ((comment.replies.map (·.id)).Nodup →
      (∀ a r d, fetch a r = .ok (some d) →
        ((pageNewReplies comment.id d).map (·.id)).Nodup) →
      ((expandReplies fetch comment).replies.map (·.id)).Nodup) :=
  expandReplies_complete fetch comment hok

/-- Counterexample to C4 as stated: a single reply page containing reply
r2 twice completes the expansion without error, yet both copies survive
into the comment's reply list. -/
theorem C4_counterexample :
    ((expandReplies fetchCX4 commentCX4).replies.map (·.id) = ["r2", "r2"]) ∧
    ((expandReplies fetchCX4 commentCX4).hasMoreReplies = false) ∧
    ¬ ((expandReplies fetchCX4 commentCX4).replies.map (·.id)).Nodup := by decide

/-- Witness for C4 at an error-free duplicate-free oracle. -/
theorem C4_dedup_witness :
    ((expandReplies fetchW5 commentCX4).hasMoreReplies = false) ∧
    (((expandReplies fetchW5 commentCX4).replies.map (·.id)).Nodup) :=
  ⟨(C4_dedup fetchW5 commentCX4 (fun a r => ⟨some pageW5, rfl⟩)).1,
   (C4_dedup fetchW5 commentCX4 (fun a r => ⟨some pageW5, rfl⟩)).2 (by decide)
     (fun a r d hd => by
       simp only [fetchW5] at hd
       injection hd with h1
       injection h1 with h2
       rw [← h2]
       decide)⟩

/-- Claim C5 (amended): reply expansion for a single comment always
terminates, but the stop conditions differ per module.  The launch
expander issues at most 5 page requests, a request beyond the first is
issued only after an error-free page with a nonempty edge list reporting a
next page (so no-next-page and zero-edge pages stop it), and against an
oracle that never throws the attempt bound is a soft stop with a normal
(ok) loop result.  The thread expander issues at most 5 requests in total
and its loop stops exactly when the parsed result reports no next page or
a falsy cursor: a further request requires only hasNextPage and a truthy
cursor, NOT a nonempty reply page, so a page with zero new reply edges
does not stop that loop by itself.  (As originally stated — stop "when a
fetched page yields zero new reply edges" — the claim fails for the thread
module; see the counterexample.) -/
theorem C5_termination :
    (∀ (fetch : Nat → ReplyRequest → Except Unit (Option RawRepliesData))
      (comment : LCComment), (expandRepliesWithTrace fetch comment).2.length ≤ 5) ∧
    (∀ (fetch : Nat → ReplyRequest → Except Unit (Option RawRepliesData))
      (comment : LCComment) (j : Nat),
      j + 1 < (expandRepliesWithTrace fetch comment).2.length →
      ∃ d edges,
        fetch (j + 1) ((expandRepliesWithTrace fetch comment).2.getD j ⟨"", []⟩) =
          .ok (some d) ∧
        d.edges = some edges ∧ edges.length ≠ 0 ∧
        jsOrBool (d.pageInfo.bind (·.hasNextPage)) = true) ∧
    (∀ (fetch : Nat → ReplyRequest → Except Unit (Option RawRepliesData))
      (comment : LCComment),
      (∀ a r, ∃ v, fetch a r = .ok v) →
      ∃ l, (expandRepliesLoop fetch comment.id (comment.replies.map (·.id)) 5 0
        (comment.repliesEndCursor.getD "") comment.replies comment.hasMoreReplies).1 =
        .ok l) ∧
    (∀ (fetch : Nat → Except Unit (Option RawTCommentData)) (comment : TComment),
      (fetchAllRepliesForComment fetch comment).2.length ≤ 5) ∧
    (∀ (fetch : Nat → Except Unit (Option RawTCommentData)) (fuel attempts : Nat)
      (hasMore : Bool) (cursor : Option String) (acc : List TReply),
      (hasMore && cursorTruthy cursor) = false →
      fetchAllRepliesLoop fetch fuel attempts hasMore cursor acc = (acc, [])) ∧
    (∀ (fetch : Nat → Except Unit (Option RawTCommentData)) (fuel attempts : Nat)
      (hasMore : Bool) (cursor : Option String) (acc : List TReply),
      1 < (fetchAllRepliesLoop fetch (fuel + 1) attempts hasMore cursor acc).2.length →
      (fetchCommentReplies (fetch (attempts + 1)) cursor
        (acc.map (·.node.id))).1.hasNextPage = true ∧
      cursorTruthy (fetchCommentReplies (fetch (attempts + 1)) cursor
        (acc.map (·.node.id))).1.nextCursor = true) := by
  refine ⟨?_, ?_, ?_, ?_, ?_, ?_⟩
  · intro fetch comment
    by_cases hguard : (!comment.hasMoreReplies &&
        decide (comment.repliesCount ≤ comment.replies.length)) = true
    · rw [expandRepliesWithTrace_snd_guard fetch comment hguard]
      simp
    · rw [expandRepliesWithTrace_snd fetch comment hguard]
      exact expandRepliesLoop_trace_le fetch comment.id _ 5 0 _ _ _
  · intro fetch comment j hj
    by_cases hguard : (!comment.hasMoreReplies &&
        decide (comment.repliesCount ≤ comment.replies.length)) = true
    · rw [expandRepliesWithTrace_snd_guard fetch comment hguard] at hj
      simp at hj
    · rw [expandRepliesWithTrace_snd fetch comment hguard] at hj ⊢
      have H := expandRepliesLoop_continue fetch comment.id (comment.replies.map (·.id))
        5 0 (comment.repliesEndCursor.getD "") comment.replies comment.hasMoreReplies j hj
      simp only [Nat.zero_add] at H
      exact H
  · intro fetch comment hok
    exact expandRepliesLoop_ok fetch comment.id (comment.replies.map (·.id)) hok 5 0
      (comment.repliesEndCursor.getD "") comment.replies comment.hasMoreReplies
  · intro fetch comment
    exact fetchAllRepliesForComment_trace_le fetch comment
  · intro fetch fuel attempts hasMore cursor acc hg
    exact fetchAllRepliesLoop_guard_false fetch fuel attempts hasMore cursor acc hg
  · intro fetch fuel attempts hasMore cursor acc h1
    by_cases hg : (hasMore && cursorTruthy cursor) = true
    · simp only [fetchAllRepliesLoop,
        if_neg (by simp [hg] : ¬ (!(hasMore && cursorTruthy cursor)) = true)] at h1
      simp only [List.length_cons] at h1
      by_cases hg2 : ((fetchCommentReplies (fetch (attempts + 1)) cursor
          (acc.map (·.node.id))).1.hasNextPage &&
          cursorTruthy (fetchCommentReplies (fetch (attempts + 1)) cursor
            (acc.map (·.node.id))).1.nextCursor) = true
      · exact ⟨((Bool.and_eq_true _ _).mp hg2).1, ((Bool.and_eq_true _ _).mp hg2).2⟩
      · exfalso
        have hfalse : ((fetchCommentReplies (fetch (attempts + 1)) cursor
            (acc.map (·.node.id))).1.hasNextPage &&
            cursorTruthy (fetchCommentReplies (fetch (attempts + 1)) cursor
              (acc.map (·.node.id))).1.nextCursor) = false := by
          cases hb : ((fetchCommentReplies (fetch (attempts + 1)) cursor
              (acc.map (·.node.id))).1.hasNextPage &&
              cursorTruthy (fetchCommentReplies (fetch (attempts + 1)) cursor
                (acc.map (·.node.id))).1.nextCursor)
          · rfl
          · exact absurd hb hg2
        rw [fetchAllRepliesLoop_guard_false fetch fuel (attempts + 1) _ _ _ hfalse] at h1
        simp at h1
    · exfalso
      have hfalse : (hasMore && cursorTruthy cursor) = false := by
        cases hb : (hasMore && cursorTruthy cursor)
        · rfl
        · exact absurd hb hg
      rw [fetchAllRepliesLoop_guard_false fetch (fuel + 1) attempts hasMore cursor acc
        hfalse] at h1
      simp at h1

/-- Counterexample to C5 as stated: against tFetchCX5 the first reply page
of a thread-comment expansion run yields zero reply edges but reports a
next page with a truthy cursor, and the loop keeps going — three requests
are issued in total even though every page is empty, so a zero-edge page
does not stop the part_000 loop. -/
theorem C5_counterexample :
    ((fetchCommentReplies (tFetchCX5 1) (some "") []).1.replies = []) ∧
    ((fetchCommentReplies (tFetchCX5 1) (some "") []).1.hasNextPage = true) ∧
    ((fetchCommentReplies (tFetchCX5 2) (some "n1") ["r1"]).1.replies = []) ∧
    ((fetchAllRepliesForComment tFetchCX5 tCommentCX6).1 = tCommentCX6.replies) ∧
    ((fetchAllRepliesForComment tFetchCX5 tCommentCX6).2.length = 3) := by decide

/-- Witness for C5 at concrete oracles: bounded traces, a satisfied
continue-condition in each module, an early-exit loop state and a normal
soft stop. -/
theorem C5_termination_witness :
    ((expandRepliesWithTrace fetchW5 commentCX3).2.length ≤ 5) ∧
    (0 + 1 < (expandRepliesWithTrace fetchCX3 commentCX3).2.length) ∧
    (∃ d edges,
      fetchCX3 (0 + 1) ((expandRepliesWithTrace fetchCX3 commentCX3).2.getD 0 ⟨"", []⟩) =
        .ok (some d) ∧
      d.edges = some edges ∧ edges.length ≠ 0 ∧
      jsOrBool (d.pageInfo.bind (·.hasNextPage)) = true) ∧
    (∃ l, (expandRepliesLoop fetchW5 commentCX3.id (commentCX3.replies.map (·.id)) 5 0
      (commentCX3.repliesEndCursor.getD "") commentCX3.replies
      commentCX3.hasMoreReplies).1 = .ok l) ∧
    ((fetchAllRepliesForComment tFetchCX6 tCommentCX6).2.length ≤ 5) ∧
    ((false && cursorTruthy (some "q")) = false) ∧
    (fetchAllRepliesLoop tFetchCX5 2 7 false (some "q") [] = ([], [])) ∧
    (1 < (fetchAllRepliesLoop tFetchCX5 4 1 true (some "n1") []).2.length) ∧
    ((fetchCommentReplies (tFetchCX5 (1 + 1)) (some "n1")
        (([] : List TReply).map (·.node.id))).1.hasNextPage = true ∧
      cursorTruthy (fetchCommentReplies (tFetchCX5 (1 + 1)) (some "n1")
        (([] : List TReply).map (·.node.id))).1.nextCursor = true) :=
  ⟨C5_termination.1 fetchW5 commentCX3,
   by decide,
   C5_termination.2.1 fetchCX3 commentCX3 0 (by decide),
   C5_termination.2.2.1 fetchW5 commentCX3 (fun a r => ⟨some pageW5, rfl⟩),
   C5_termination.2.2.2.1 tFetchCX6 tCommentCX6,
   by decide,
   C5_termination.2.2.2.2.1 tFetchCX5 2 7 false (some "q") [] (by decide),
   by decide,
   C5_termination.2.2.2.2.2 tFetchCX5 3 1 true (some "n1") [] (by decide)⟩

/-- Claim C6 (amended): the launch expander passes the identifiers of
already-held replies as the exclusion list on its first page request and
an empty list on every later one; but in the thread module every wire
request — the first one included — carries an empty exclusion list,
because fetchAllRepliesForComment hands an explicitly empty list to the
first fetch and fetchCommentReplies forwards an exclusion list only when
the cursor is the empty string.  (As originally stated the claim fails for
the thread module: the held reply identifiers are never sent; see the
counterexample.) -/
theorem C6_exclusion_lists :
    (∀ (fetch : Nat → ReplyRequest → Except Unit (Option RawRepliesData))
      (comment : LCComment) (j : Nat),
      j < (expandRepliesWithTrace fetch comment).2.length →
      ((expandRepliesWithTrace fetch comment).2.getD j ⟨"", []⟩).excludedCommentIds =
        if j = 0 then comment.replies.map (·.id) else []) ∧
    (∀ (fetch : Nat → Except Unit (Option RawTCommentData)) (comment : TComment) (j : Nat),
      j < (fetchAllRepliesForComment fetch comment).2.length →
      ((fetchAllRepliesForComment fetch comment).2.getD j ⟨none, []⟩).excludedCommentIds =
        []) ∧
    (∀ (resp : Except Unit (Option RawTCommentData)) (cursor : Option String)
      (excl : List String),
      (fetchCommentReplies resp cursor excl).2 =
        ⟨cursor, if cursor = some "" then excl else []⟩) := by
  refine ⟨?_, ?_, ?_⟩
  · intro fetch comment j hj
    by_cases hguard : (!comment.hasMoreReplies &&
        decide (comment.repliesCount ≤ comment.replies.length)) = true
    · rw [expandRepliesWithTrace_snd_guard fetch comment hguard] at hj
      simp at hj
    · rw [expandRepliesWithTrace_snd fetch comment hguard] at hj ⊢
      have H := expandRepliesLoop_excluded fetch comment.id (comment.replies.map (·.id))
        5 0 (comment.repliesEndCursor.getD "") comment.replies comment.hasMoreReplies j hj
      by_cases hj0 : j = 0
      · subst hj0
        rw [if_pos rfl]
        rw [if_pos rfl] at H
        exact H
      · rw [if_neg hj0]
        rw [if_neg (by omega : ¬ (0 + j + 1 = 1))] at H
        exact H
  · intro fetch comment j hj
    exact fetchAllRepliesForComment_excluded_empty fetch comment j hj
  · intro resp cursor excl
    exact fetchCommentReplies_snd resp cursor excl

/-- Counterexample to C6 as stated: a thread comment holds reply r1 and
needs expansion, yet the first (and only) wire request of its expansion
run carries the empty exclusion list rather than the held identifiers. -/
theorem C6_counterexample :
    (tCommentCX6.replies.map (·.node.id) = ["r1"]) ∧
    (tCommentCX6.hasMoreReplies = true) ∧
    ((fetchAllRepliesForComment tFetchCX6 tCommentCX6).2.getD 0 ⟨none, []⟩ =
      ⟨some "", []⟩) ∧
    ¬ (((fetchAllRepliesForComment tFetchCX6 tCommentCX6).2.getD 0
        ⟨none, []⟩).excludedCommentIds = tCommentCX6.replies.map (·.node.id)) := by decide

/-- Witness for C6 at concrete expansion runs of both modules. -/
theorem C6_exclusion_lists_witness :
    (0 < (expandRepliesWithTrace fetchW5 commentCX3).2.length) ∧
    (((expandRepliesWithTrace fetchW5 commentCX3).2.getD 0 ⟨"", []⟩).excludedCommentIds =
      if 0 = 0 then commentCX3.replies.map (·.id) else []) ∧
    (0 < (fetchAllRepliesForComment tFetchCX6 tCommentCX6).2.length) ∧
    (((fetchAllRepliesForComment tFetchCX6 tCommentCX6).2.getD 0
        ⟨none, []⟩).excludedCommentIds = []) :=
  ⟨by decide,
   C6_exclusion_lists.1 fetchW5 commentCX3 0 (by decide),
   by decide,
   C6_exclusion_lists.2.1 tFetchCX6 tCommentCX6 0 (by decide)⟩

/-- Claim C8: every maker output by the correlator carries its three
correlated-activity fields as present lists (never null), and a maker
whose identifier appears nowhere in the scanned launches and threads
receives three empty lists. -/
theorem C8_correlator_totality (md : Option RawMakersData)
    (ld : Option CorrLaunchesData) (td : Option CorrThreadsData) :
    ∀ m ∈ parseMakers md ld td,
      m.launchComments ≠ none ∧ m.forumComments ≠ none ∧
      m.forumThreadsAuthored ≠ none ∧
      (m.id ∉ scannedAuthorIds ld td →
        m.launchComments = some [] ∧ m.forumComments = some [] ∧
          m.forumThreadsAuthored = some []) := by
  intro m hm
  cases md with
  | none =>
    rw [parseMakers.eq_def] at hm
    simp at hm
  | some md' =>
    rw [parseMakers.eq_def] at hm
    dsimp only at hm
    cases he : md'.edges with
    | none =>
      rw [he] at hm
      simp at hm
    | some edges =>
      rw [he] at hm
      dsimp only at hm
      obtain ⟨e, hemem, hfe⟩ := List.mem_filterMap.mp hm
      cases hn : e.node with
      | none =>
        rw [hn] at hfe
        simp at hfe
      | some maker =>
        rw [hn] at hfe
        dsimp only at hfe
        have hrec := Option.some.inj hfe
        subst hrec
        refine ⟨by simp, by simp, by simp, ?_⟩
        intro hnot
        have hlook : lookupAuthor (buildCommentsByAuthor ld td) maker.id = none :=
          buildCommentsByAuthor_none ld td maker.id hnot
        refine ⟨?_, ?_, ?_⟩
        · dsimp only
          rw [hlook]
          simp
        · dsimp only
          rw [hlook]
          simp
        · dsimp only
          rw [hlook]
          simp

/-- Witness for C8: a maker absent from empty correlation data gets three
empty activity lists. -/
theorem C8_correlator_totality_witness :
    (makerOutW ∈ parseMakers makersDataW launchesDataW threadsDataW) ∧
    (makerOutW.id ∉ scannedAuthorIds launchesDataW threadsDataW) ∧
    (makerOutW.launchComments = some [] ∧ makerOutW.forumComments = some [] ∧
      makerOutW.forumThreadsAuthored = some []) :=
  ⟨by decide, by decide,
   (C8_correlator_totality makersDataW launchesDataW threadsDataW makerOutW
      (by decide)).2.2.2 (by decide)⟩

/-- Claim C9: in the launch-comments two-stage fetch, a first-stage
failure (no post id, which is what a thrown first request parses to)
aborts the whole fetch with the empty-comments result after that single
request, while a thrown later page request parses to the empty
no-next-page batch, so the loop stops and returns exactly the comments
accumulated so far. -/
theorem C9_two_stage_failures :
    (∀ (firstResp : Except Unit (Option RawPost))
      (nextResp : Nat → Except Unit RawNextData) (limit : Option Nat) (fa : Bool)
      (ex : LCComment → LCComment) (fuel : Nat),
      (parseFirstBatch firstResp).postId = none →
      fetchLaunchComments firstResp nextResp limit fa ex (fuel + 1) =
        (some ⟨0, 0, []⟩, [⟨1, "", none⟩])) ∧
    (∀ (firstResp : Except Unit (Option RawPost))
      (nextResp : Nat → Except Unit RawNextData) (limit : Option Nat) (fa : Bool)
      (ex : LCComment → LCComment) (fuel bn : Nat) (postId : Option String)
      (cursor : String) (acc : List LCComment) (total texp : Nat) (e : Unit),
      nextResp bn = .error e →
      (∀ L, limit = some L → total < L) →
      lcLoop firstResp nextResp limit fa ex (fuel + 1) bn false postId cursor acc total
          texp =
        (some ⟨total, texp, acc⟩, [⟨bn, cursor, postId⟩])) ∧
    (∀ e, parseFirstBatch (.error e) = ⟨[], false, none, 0, none⟩) ∧
    (∀ e, parseNextBatch (.error e) = ⟨[], false, none⟩) :=
  ⟨fun firstResp nextResp limit fa ex fuel h =>
     lcLoop_first_none firstResp nextResp limit fa ex fuel h,
   fun firstResp nextResp limit fa ex fuel bn postId cursor acc total texp e herr htot =>
     lcLoop_error_step firstResp nextResp limit fa ex fuel bn postId cursor acc total
       texp e herr htot,
   fun e => rfl, fun e => rfl⟩

/-- Witness for C9: a thrown first request aborts with the empty result; a
thrown second-batch request returns the accumulated comment. -/
theorem C9_two_stage_failures_witness :
    ((parseFirstBatch firstRespFailW).postId = none) ∧
    (fetchLaunchComments firstRespFailW nextRespW none false exIdW 3 =
      (some ⟨0, 0, []⟩, [⟨1, "", none⟩])) ∧
    (nextRespW 2 = .error ()) ∧
    (lcLoop firstRespW nextRespW none false exIdW 3 2 false (some "post1") "c"
        [lcCommentW "c1"] 1 3 =
      (some ⟨1, 3, [lcCommentW "c1"]⟩, [⟨2, "c", some "post1"⟩])) :=
  ⟨rfl,
   C9_two_stage_failures.1 firstRespFailW nextRespW none false exIdW 2 rfl,
   rfl,
   C9_two_stage_failures.2.1 firstRespW nextRespW none false exIdW 2 2 (some "post1")
     "c" [lcCommentW "c1"] 1 3 () rfl (fun L hL => Option.noConfusion hL)⟩

/-- Claim C10: under a finite limit L, a completed fetchLaunchComments run
returns parsedComments of length min L commentCount, so when the running
total commentCount exceeds L the returned list is strictly shorter than
commentCount. -/
theorem C10_commentCount_exceeds (firstResp : Except Unit (Option RawPost))
    (nextResp : Nat → Except Unit RawNextData) (L : Nat) (fa : Bool)
    (ex : LCComment → LCComment) (fuel : Nat) :
    ∀ res, (fetchLaunchComments firstResp nextResp (some L) fa ex fuel).1 = some res →
      res.parsedComments.length = min L res.commentCount ∧
      (L < res.commentCount → res.parsedComments.length < res.commentCount) := by
  intro res h
  have H := (fetchLaunchComments_take firstResp nextResp L fa ex fuel).1 res h
  constructor
  · rw [H.1, List.length_take, ← H.2]
  · intro hlt
    rw [H.1, List.length_take, ← H.2, Nat.min_eq_left (Nat.le_of_lt hlt)]
    exact hlt

/-- Witness for C10: a limit of 2 against a 3-comment launch returns 2
comments with commentCount 3. -/
theorem C10_commentCount_exceeds_witness :
    ((fetchLaunchComments firstRespW nextRespW (some 2) false exIdW 3).1 =
      some ⟨3, 3, [lcCommentW "c1", lcCommentW "c2"]⟩) ∧
    ((⟨3, 3, [lcCommentW "c1", lcCommentW "c2"]⟩ : LCResult).parsedComments.length =
      min 2 (⟨3, 3, [lcCommentW "c1", lcCommentW "c2"]⟩ : LCResult).commentCount) ∧
    ((2 : Nat) < (⟨3, 3, [lcCommentW "c1", lcCommentW "c2"]⟩ : LCResult).commentCount →
      (⟨3, 3, [lcCommentW "c1", lcCommentW "c2"]⟩ : LCResult).parsedComments.length <
        (⟨3, 3, [lcCommentW "c1", lcCommentW "c2"]⟩ : LCResult).commentCount) :=
  ⟨by decide,
   (C10_commentCount_exceeds firstRespW nextRespW 2 false exIdW 3
      ⟨3, 3, [lcCommentW "c1", lcCommentW "c2"]⟩ (by decide)).1,
   (C10_commentCount_exceeds firstRespW nextRespW 2 false exIdW 3
      ⟨3, 3, [lcCommentW "c1", lcCommentW "c2"]⟩ (by decide)).2⟩

end PH
